import Mathlib

/-!
Verification of the picodox keyboard firmware and host utility.

The development shallowly embeds the protocol crate (src/proto), the
firmware command server (src/firmware/src/serial.rs, main.rs), the
deferred logger (src/firmware/src/logging.rs) and the host utility
(src/cli/src/main.rs, uf2.rs) as executable Lean functions over lists of
natural numbers standing for bytes (always < 256 in well-formed data).

Third-party dependencies of the code (the postcard codec, the cobs escape
coder, the crc crate's CRC-8-Bluetooth) are embedded from their documented
algorithms: postcard uses LEB128 varints, one-byte-varint enum
discriminants, raw bytes for u8 and fixed arrays, and a varint length
prefix for heapless vectors; cobs is the standard zero-eliminating scheme
with groups of up to 254 non-zero bytes; CRC-8-Bluetooth is the reflected
CRC with polynomial 0xA7 (reflected 0xE5), zero init and zero xorout.

Note on the source snapshot: the repository files mix two revisions of the
proto crate.  src/proto/src/lib.rs (the definition site of Command and
Response) has four Command variants, while src/firmware/src/serial.rs
contains a match arm for a TimerDebug command variant and the CLI refers
to a FlashFw variant; neither variant exists in the type as defined.  The
embedding follows the definition site, src/proto/src/lib.rs, and
src/proto/src/errors.rs for ProtoError.
-/

set_option maxHeartbeats 1000000
set_option maxRecDepth 10000

namespace Picodox

/-! ### Data model (src/proto/src/lib.rs, src/proto/src/errors.rs) -/

/-- ProtoError from src/proto/src/errors.rs.  The ucid field (a u8 call
site id) is present in errors.rs; the snapshot's proto_impl.rs constructs
these errors through an older ucid-less helper API, so the embedded
proto_impl passes ucid 0; no property proved below depends on the ucid
value. -/
inductive ProtoError where
  | BufferSize (ucid : Nat)
  | PostcardError (code : Nat)
  | CrcMismatch (calculated actual : Nat)
  | BadLength (ucid : Nat) (len : Nat)
  | Invariant (ucid : Nat) (kind : Nat)
  deriving DecidableEq, Repr

/-- AckType from src/proto/src/lib.rs. -/
inductive AckType where
  | AckReset
  | AckUsbDfu
  | AckFlashFw
  deriving DecidableEq, Repr

/-- NackType from src/proto/src/lib.rs. -/
inductive NackType where
  | Unexpected
  | PacketErr (err : ProtoError)
  | BufferOverflow
  deriving DecidableEq, Repr

/-- TimerDebug from src/proto/src/lib.rs: u64, u32, bool, bool. -/
structure TimerDebug where
  current_time : Nat
  fire_time : Nat
  armed : Bool
  enabled : Bool
  deriving DecidableEq, Repr

/-- DATA_COUNT from src/proto/src/lib.rs. -/
def DATA_COUNT : Nat := 8

/-- Command from src/proto/src/lib.rs.  count is a u16, the Data payload
is a [u8; 8]. -/
inductive Command where
  | Reset
  | UsbDfu
  | EchoMsg (count : Nat)
  | Data (data : List Nat)
  deriving DecidableEq, Repr

/-- Response from src/proto/src/lib.rs. -/
inductive Response where
  | Ack (ack : AckType)
  | Nack (nack : NackType)
  | EchoMsg (count : Nat)
  | Data (data : List Nat)
  | TimerDebug (td : TimerDebug)
  deriving DecidableEq, Repr

def NUM_ROWS : Nat := 5
def NUM_COLS : Nat := 7
def NUM_KEYS : Nat := NUM_ROWS * NUM_COLS

/-- KeyUpdate from src/proto/src/lib.rs: a heapless Vec of MatrixLoc
(one byte each) with capacity NUM_KEYS = 35. -/
structure KeyUpdate where
  keys : List Nat
  deriving DecidableEq, Repr

/-- Well-formedness of a Command value: machine-integer ranges of the
Rust fields. -/
def Command.wf : Command → Prop
  | .Reset => True
  | .UsbDfu => True
  | .EchoMsg n => n < 2 ^ 16
  | .Data d => d.length = DATA_COUNT ∧ ∀ b ∈ d, b < 256

/-- Well-formedness of a ProtoError value: all fields are u8. -/
def ProtoError.wf : ProtoError → Prop
  | .BufferSize u => u < 256
  | .PostcardError c => c < 256
  | .CrcMismatch c a => c < 256 ∧ a < 256
  | .BadLength u l => u < 256 ∧ l < 256
  | .Invariant u k => u < 256 ∧ k < 256

def NackType.wf : NackType → Prop
  | .Unexpected => True
  | .PacketErr e => e.wf
  | .BufferOverflow => True

def TimerDebug.wf (td : TimerDebug) : Prop :=
  td.current_time < 2 ^ 64 ∧ td.fire_time < 2 ^ 32

def Response.wf : Response → Prop
  | .Ack _ => True
  | .Nack n => n.wf
  | .EchoMsg n => n < 2 ^ 16
  | .Data d => d.length = DATA_COUNT ∧ ∀ b ∈ d, b < 256
  | .TimerDebug td => td.wf

def KeyUpdate.wf (ku : KeyUpdate) : Prop :=
  ku.keys.length ≤ NUM_KEYS ∧ ∀ b ∈ ku.keys, b < 256

instance : DecidablePred Command.wf := by
  intro c; unfold Command.wf; cases c <;> infer_instance

instance : DecidablePred ProtoError.wf := by
  intro e; unfold ProtoError.wf; cases e <;> infer_instance

instance : DecidablePred NackType.wf := by
  intro n; unfold NackType.wf; cases n <;> infer_instance

instance (td : TimerDebug) : Decidable td.wf := by
  unfold TimerDebug.wf; infer_instance

instance : DecidablePred Response.wf := by
  intro r; unfold Response.wf; cases r <;> infer_instance

instance (ku : KeyUpdate) : Decidable ku.wf := by
  unfold KeyUpdate.wf; infer_instance

instance {ε α : Type} [DecidableEq ε] [DecidableEq α] : DecidableEq (Except ε α) :=
  fun a b =>
    match a, b with
    | .ok x, .ok y =>
      if h : x = y then .isTrue (by rw [h]) else .isFalse (by intro hc; cases hc; exact h rfl)
    | .ok _, .error _ => .isFalse (by intro hc; cases hc)
    | .error _, .ok _ => .isFalse (by intro hc; cases hc)
    | .error x, .error y =>
      if h : x = y then .isTrue (by rw [h]) else .isFalse (by intro hc; cases hc; exact h rfl)

/-! ### Postcard serialization (LEB128 varints, one-byte u8, raw fixed
arrays, varint-length-prefixed vectors, varint enum discriminants) -/

/-- LEB128 varint encoding used by postcard for u16/u32/u64/usize.  The
fuel argument is structural head-room only: ten bytes cover every u64, so
varintEnc below is total on all machine-integer values. -/
def varintEncAux : Nat → Nat → List Nat
  | 0, _ => []
  | fuel + 1, v => if v < 128 then [v] else (v % 128 + 128) :: varintEncAux fuel (v / 128)

def varintEnc (v : Nat) : List Nat := varintEncAux 10 v

/-- Varint decoding: postcard reads at most maxB bytes for a given
integer width and rejects a final byte that would overflow the width
(lastMax is one more than the largest admissible final byte). -/
def varintDecAux : Nat → Nat → Nat → Nat → List Nat → Except ProtoError (Nat × List Nat)
  | 0, _, _, _, _ => .error (.PostcardError 2)
  | _ + 1, _, _, _, [] => .error (.PostcardError 1)
  | fuel + 1, lastMax, shift, acc, b :: rest =>
    if b < 128 then
      if fuel = 0 ∧ lastMax ≤ b then .error (.PostcardError 2)
      else .ok (acc + b * 2 ^ shift, rest)
    else varintDecAux fuel lastMax (shift + 7) (acc + (b % 128) * 2 ^ shift) rest

def varintDec (maxB lastMax : Nat) (l : List Nat) : Except ProtoError (Nat × List Nat) :=
  varintDecAux maxB lastMax 0 0 l

/-- Pop a single raw byte (postcard u8). -/
def popByte : List Nat → Except ProtoError (Nat × List Nat)
  | [] => .error (.PostcardError 1)
  | b :: rest => .ok (b, rest)

/-- Pop n raw bytes (postcard fixed-size array of u8). -/
def popBytes (n : Nat) (l : List Nat) : Except ProtoError (List Nat × List Nat) :=
  if l.length < n then .error (.PostcardError 1)
  else .ok (l.take n, l.drop n)

/-- Pop a bool (postcard encodes true as 1, false as 0, rejects others). -/
def popBool : List Nat → Except ProtoError (Bool × List Nat)
  | [] => .error (.PostcardError 1)
  | 0 :: rest => .ok (false, rest)
  | 1 :: rest => .ok (true, rest)
  | _ :: _ => .error (.PostcardError 3)

def serAckType : AckType → List Nat
  | .AckReset => [0]
  | .AckUsbDfu => [1]
  | .AckFlashFw => [2]

def serProtoError : ProtoError → List Nat
  | .BufferSize u => [0, u]
  | .PostcardError c => [1, c]
  | .CrcMismatch c a => [2, c, a]
  | .BadLength u l => [3, u, l]
  | .Invariant u k => [4, u, k]

def serNackType : NackType → List Nat
  | .Unexpected => [0]
  | .PacketErr e => 1 :: serProtoError e
  | .BufferOverflow => [2]

def serTimerDebug (td : TimerDebug) : List Nat :=
  varintEnc td.current_time ++ varintEnc td.fire_time ++
    [if td.armed then 1 else 0, if td.enabled then 1 else 0]

def serCommand : Command → List Nat
  | .Reset => [0]
  | .UsbDfu => [1]
  | .EchoMsg n => 2 :: varintEnc n
  | .Data d => 3 :: d

def serResponse : Response → List Nat
  | .Ack a => 0 :: serAckType a
  | .Nack n => 1 :: serNackType n
  | .EchoMsg n => 2 :: varintEnc n
  | .Data d => 3 :: d
  | .TimerDebug td => 4 :: serTimerDebug td

def serKeyUpdate (ku : KeyUpdate) : List Nat :=
  varintEnc ku.keys.length ++ ku.keys

/-- Enum discriminants are varint u32 in postcard. -/
def popDisc (l : List Nat) : Except ProtoError (Nat × List Nat) :=
  varintDec 5 16 l

def desAckType (l : List Nat) : Except ProtoError (AckType × List Nat) := do
  let (d, rest) ← popDisc l
  match d with
  | 0 => .ok (.AckReset, rest)
  | 1 => .ok (.AckUsbDfu, rest)
  | 2 => .ok (.AckFlashFw, rest)
  | _ => .error (.PostcardError 4)

def desProtoError (l : List Nat) : Except ProtoError (ProtoError × List Nat) := do
  let (d, rest) ← popDisc l
  match d with
  | 0 => do let (u, r) ← popByte rest; .ok (.BufferSize u, r)
  | 1 => do let (c, r) ← popByte rest; .ok (.PostcardError c, r)
  | 2 => do
      let (c, r) ← popByte rest
      let (a, r2) ← popByte r
      .ok (.CrcMismatch c a, r2)
  | 3 => do
      let (u, r) ← popByte rest
      let (le, r2) ← popByte r
      .ok (.BadLength u le, r2)
  | 4 => do
      let (u, r) ← popByte rest
      let (k, r2) ← popByte r
      .ok (.Invariant u k, r2)
  | _ => .error (.PostcardError 4)

def desNackType (l : List Nat) : Except ProtoError (NackType × List Nat) := do
  let (d, rest) ← popDisc l
  match d with
  | 0 => .ok (.Unexpected, rest)
  | 1 => do let (e, r) ← desProtoError rest; .ok (.PacketErr e, r)
  | 2 => .ok (.BufferOverflow, rest)
  | _ => .error (.PostcardError 4)

def desTimerDebug (l : List Nat) : Except ProtoError (TimerDebug × List Nat) := do
  let (ct, r1) ← varintDec 10 2 l
  let (ft, r2) ← varintDec 5 16 r1
  let (ar, r3) ← popBool r2
  let (en, r4) ← popBool r3
  .ok (⟨ct, ft, ar, en⟩, r4)

def desCommand (l : List Nat) : Except ProtoError (Command × List Nat) := do
  let (d, rest) ← popDisc l
  match d with
  | 0 => .ok (.Reset, rest)
  | 1 => .ok (.UsbDfu, rest)
  | 2 => do let (n, r) ← varintDec 3 4 rest; .ok (.EchoMsg n, r)
  | 3 => do let (bs, r) ← popBytes DATA_COUNT rest; .ok (.Data bs, r)
  | _ => .error (.PostcardError 4)

def desResponse (l : List Nat) : Except ProtoError (Response × List Nat) := do
  let (d, rest) ← popDisc l
  match d with
  | 0 => do let (a, r) ← desAckType rest; .ok (.Ack a, r)
  | 1 => do let (n, r) ← desNackType rest; .ok (.Nack n, r)
  | 2 => do let (n, r) ← varintDec 3 4 rest; .ok (.EchoMsg n, r)
  | 3 => do let (bs, r) ← popBytes DATA_COUNT rest; .ok (.Data bs, r)
  | 4 => do let (td, r) ← desTimerDebug rest; .ok (.TimerDebug td, r)
  | _ => .error (.PostcardError 4)

def desKeyUpdate (l : List Nat) : Except ProtoError (KeyUpdate × List Nat) := do
  let (n, rest) ← varintDec 5 16 l
  if n ≤ NUM_KEYS then
    let (bs, r) ← popBytes n rest
    .ok (⟨bs⟩, r)
  else .error (.PostcardError 5)

/-! ### Varint round-trip -/

theorem varintDecAux_enc (fuel : Nat) :
    ∀ (ef lastMax shift acc v : Nat) (rest : List Nat),
    0 < fuel → 0 < ef → lastMax ≤ 128 →
    v < 2 ^ (7 * (fuel - 1)) * lastMax → v < 2 ^ (7 * ef) →
    varintDecAux fuel lastMax shift acc (varintEncAux ef v ++ rest) =
      .ok (acc + v * 2 ^ shift, rest) := by
  induction fuel with
  | zero => intro _ _ _ _ _ _ h; omega
  | succ f ih =>
    intro ef lastMax shift acc v rest _ hef hlast hv hvef
    cases ef with
    | zero => omega
    | succ ef =>
      by_cases h : v < 128
      · rw [varintEncAux, if_pos h]
        simp only [List.cons_append, List.nil_append, varintDecAux, if_pos h]
        rw [if_neg (by
          rintro ⟨hf0, hge⟩
          subst hf0
          simp at hv
          omega)]
        simp
      · rw [varintEncAux, if_neg h]
        simp only [List.cons_append, varintDecAux]
        rw [if_neg (by omega)]
        simp only [List.append_eq]
        have hf : 0 < f := by
          by_contra hf
          have hf0 : f = 0 := by omega
          subst hf0
          simp at hv
          omega
        have hef2 : 0 < ef := by
          by_contra hef2
          have hef0 : ef = 0 := by omega
          subst hef0
          simp at hvef
          omega
        have h2 : 2 ^ (7 * (f + 1 - 1)) * lastMax = 128 * (2 ^ (7 * (f - 1)) * lastMax) := by
          have h3 : 7 * (f + 1 - 1) = 7 + 7 * (f - 1) := by omega
          rw [h3, Nat.pow_add]
          ring
        rw [h2] at hv
        have h4 : 2 ^ (7 * (ef + 1)) = 128 * 2 ^ (7 * ef) := by
          have h5 : 7 * (ef + 1) = 7 + 7 * ef := by omega
          rw [h5, Nat.pow_add]
        rw [h4] at hvef
        have hdiv : v / 128 < 2 ^ (7 * (f - 1)) * lastMax := by omega
        have hdivef : v / 128 < 2 ^ (7 * ef) := by omega
        have hmod : (v % 128 + 128) % 128 = v % 128 := by omega
        rw [hmod, ih ef lastMax (shift + 7) (acc + v % 128 * 2 ^ shift) (v / 128) rest
          hf hef2 hlast hdiv hdivef]
        have hval : acc + v % 128 * 2 ^ shift + v / 128 * 2 ^ (shift + 7)
            = acc + v * 2 ^ shift := by
          have hpow : 2 ^ (shift + 7) = 2 ^ shift * 128 := by
            rw [Nat.pow_add]
          have hvm := Nat.div_add_mod v 128
          calc acc + v % 128 * 2 ^ shift + v / 128 * 2 ^ (shift + 7)
              = acc + (128 * (v / 128) + v % 128) * 2 ^ shift := by rw [hpow]; ring
            _ = acc + v * 2 ^ shift := by rw [hvm]
        rw [hval]

theorem varintDec_enc (maxB lastMax v : Nat) (rest : List Nat)
    (hfuel : 0 < maxB) (hlast : lastMax ≤ 128)
    (hv : v < 2 ^ (7 * (maxB - 1)) * lastMax) (hv64 : v < 2 ^ 70) :
    varintDec maxB lastMax (varintEnc v ++ rest) = .ok (v, rest) := by
  unfold varintDec varintEnc
  rw [varintDecAux_enc maxB 10 lastMax 0 0 v rest hfuel (by norm_num) hlast hv
    (by simpa using hv64)]
  simp

theorem varintEncAux_length (f : Nat) : ∀ (v k : Nat), 0 < k → v < 2 ^ (7 * k) →
    (varintEncAux f v).length ≤ k := by
  induction f with
  | zero => intro v k hk _; simp [varintEncAux]
  | succ f ih =>
    intro v k hk hv
    by_cases h : v < 128
    · rw [varintEncAux, if_pos h]
      simp
      omega
    · rw [varintEncAux, if_neg h]
      simp only [List.length_cons]
      have hk0 : 0 < k - 1 := by
        by_contra hk0
        have hk1 : k = 1 := by omega
        subst hk1
        simp at hv
        omega
      have hless : v / 128 < 2 ^ (7 * (k - 1)) := by
        have h2 : 2 ^ (7 * k) = 128 * 2 ^ (7 * (k - 1)) := by
          have h3 : 7 * k = 7 + 7 * (k - 1) := by omega
          rw [h3, Nat.pow_add]
        rw [h2] at hv
        omega
      have := ih (v / 128) (k - 1) hk0 hless
      omega

theorem varintEnc_length (v k : Nat) (hk : 0 < k) (hv : v < 2 ^ (7 * k)) :
    (varintEnc v).length ≤ k :=
  varintEncAux_length 10 v k hk hv

/-! ### Postcard round-trip lemmas -/

theorem exceptBind_ok {α β ε : Type} (x : α) (f : α → Except ε β) :
    (Except.ok x >>= f) = f x := rfl

theorem popDisc_lt (d : Nat) (rest : List Nat) (h : d < 128) :
    popDisc (d :: rest) = .ok (d, rest) := by
  unfold popDisc varintDec
  unfold varintDecAux
  rw [if_pos h, if_neg (by simp)]
  simp

theorem popBytes_append (bs rest : List Nat) :
    popBytes bs.length (bs ++ rest) = .ok (bs, rest) := by
  unfold popBytes
  rw [if_neg (by simp)]
  rw [List.take_left, List.drop_left]

theorem desAckType_ser (a : AckType) (rest : List Nat) :
    desAckType (serAckType a ++ rest) = .ok (a, rest) := by
  cases a <;>
    simp [serAckType, desAckType, popDisc_lt, exceptBind_ok]

theorem desProtoError_ser (e : ProtoError) (rest : List Nat) :
    desProtoError (serProtoError e ++ rest) = .ok (e, rest) := by
  cases e <;>
    simp [serProtoError, desProtoError, popDisc_lt, exceptBind_ok, popByte]

theorem desNackType_ser (n : NackType) (rest : List Nat) :
    desNackType (serNackType n ++ rest) = .ok (n, rest) := by
  cases n <;>
    simp [serNackType, desNackType, popDisc_lt, exceptBind_ok, desProtoError_ser]

theorem popBool_enc (b : Bool) (t : List Nat) :
    popBool ((if b then 1 else 0) :: t) = .ok (b, t) := by
  cases b <;> simp [popBool]

theorem desTimerDebug_ser (td : TimerDebug) (hwf : td.wf) (rest : List Nat) :
    desTimerDebug (serTimerDebug td ++ rest) = .ok (td, rest) := by
  obtain ⟨h1, h2⟩ := hwf
  have hct : ∀ t, varintDec 10 2 (varintEnc td.current_time ++ t) =
      .ok (td.current_time, t) :=
    fun t => varintDec_enc 10 2 td.current_time t (by norm_num) (by norm_num)
      (by norm_num at h1 ⊢; omega) (by norm_num at h1 ⊢; omega)
  have hft : ∀ t, varintDec 5 16 (varintEnc td.fire_time ++ t) =
      .ok (td.fire_time, t) :=
    fun t => varintDec_enc 5 16 td.fire_time t (by norm_num) (by norm_num)
      (by norm_num at h2 ⊢; omega) (by norm_num at h2 ⊢; omega)
  simp [desTimerDebug, serTimerDebug, exceptBind_ok, hct, hft, popBool_enc]

theorem desCommand_ser (x : Command) (hwf : x.wf) (rest : List Nat) :
    desCommand (serCommand x ++ rest) = .ok (x, rest) := by
  cases x with
  | Reset => simp [serCommand, desCommand, popDisc_lt, exceptBind_ok]
  | UsbDfu => simp [serCommand, desCommand, popDisc_lt, exceptBind_ok]
  | EchoMsg n =>
    have hwf2 : n < 2 ^ 16 := hwf
    have hn := varintDec_enc 3 4 n rest (by norm_num) (by norm_num)
      (by norm_num at hwf2 ⊢; omega) (by norm_num at hwf2 ⊢; omega)
    simp [serCommand, desCommand, popDisc_lt, exceptBind_ok, hn]
  | Data d =>
    have hlen : d.length = DATA_COUNT := hwf.1
    have hp := popBytes_append d rest
    rw [hlen] at hp
    simp [serCommand, desCommand, popDisc_lt, exceptBind_ok, hp]

theorem desResponse_ser (x : Response) (hwf : x.wf) (rest : List Nat) :
    desResponse (serResponse x ++ rest) = .ok (x, rest) := by
  cases x with
  | Ack a =>
    simp [serResponse, desResponse, popDisc_lt, exceptBind_ok, desAckType_ser]
  | Nack n =>
    simp [serResponse, desResponse, popDisc_lt, exceptBind_ok, desNackType_ser]
  | EchoMsg n =>
    have hwf2 : n < 2 ^ 16 := hwf
    have hn := varintDec_enc 3 4 n rest (by norm_num) (by norm_num)
      (by norm_num at hwf2 ⊢; omega) (by norm_num at hwf2 ⊢; omega)
    simp [serResponse, desResponse, popDisc_lt, exceptBind_ok, hn]
  | Data d =>
    have hlen : d.length = DATA_COUNT := hwf.1
    have hp := popBytes_append d rest
    rw [hlen] at hp
    simp [serResponse, desResponse, popDisc_lt, exceptBind_ok, hp]
  | TimerDebug td =>
    have ht := desTimerDebug_ser td hwf rest
    simp [serResponse, desResponse, popDisc_lt, exceptBind_ok, ht]

theorem desKeyUpdate_ser (ku : KeyUpdate) (hwf : ku.wf) (rest : List Nat) :
    desKeyUpdate (serKeyUpdate ku ++ rest) = .ok (ku, rest) := by
  obtain ⟨h1, _⟩ := hwf
  have h1b : ku.keys.length ≤ 35 := by
    unfold NUM_KEYS NUM_ROWS NUM_COLS at h1
    omega
  have hn := varintDec_enc 5 16 ku.keys.length (ku.keys ++ rest)
    (by norm_num) (by norm_num)
    (by norm_num; omega) (by norm_num; omega)
  have hp := popBytes_append ku.keys rest
  simp [serKeyUpdate, desKeyUpdate, exceptBind_ok, hn, hp, if_pos h1]

/-! ### CRC-8-Bluetooth (crc crate, CRC_8_BLUETOOTH: reflected, polynomial
0xA7 whose bit-reversal is 0xE5, init 0, xorout 0) -/

def crcRound (c : Nat) : Nat :=
  if c % 2 = 1 then (c / 2) ^^^ 0xE5 else c / 2

def crc8Byte (c b : Nat) : Nat :=
  crcRound^[8] (c ^^^ b)

/-- CRC.checksum over a byte sequence. -/
def crc8 (l : List Nat) : Nat :=
  l.foldl crc8Byte 0

/-! ### COBS escape coding (cobs crate; the standard zero-eliminating
scheme: each group of up to 254 non-zero bytes is prefixed by one more
than its length, a group of exactly 254 bytes is prefixed 0xFF and
implies no following zero). -/

/-- Take the longest leading run of non-zero bytes, up to n. -/
def takeBlock : Nat → List Nat → List Nat × List Nat
  | _, [] => ([], [])
  | 0, l => ([], l)
  | n + 1, b :: rest =>
    if b = 0 then ([], b :: rest)
    else
      let p := takeBlock n rest
      (b :: p.1, p.2)

theorem takeBlock_append (n : Nat) (l : List Nat) :
    (takeBlock n l).1 ++ (takeBlock n l).2 = l := by
  induction l generalizing n with
  | nil => cases n <;> simp [takeBlock]
  | cons b rest ih =>
    cases n with
    | zero => simp [takeBlock]
    | succ m =>
      by_cases hb : b = 0
      · simp [takeBlock, hb]
      · simp [takeBlock, hb, ih]

theorem takeBlock_length (n : Nat) (l : List Nat) :
    (takeBlock n l).1.length ≤ n := by
  induction l generalizing n with
  | nil => cases n <;> simp [takeBlock]
  | cons b rest ih =>
    cases n with
    | zero => simp [takeBlock]
    | succ m =>
      by_cases hb : b = 0
      · simp [takeBlock, hb]
      · simp [takeBlock, hb]
        exact ih m

theorem takeBlock_ne_zero (n : Nat) (l : List Nat) :
    ∀ b ∈ (takeBlock n l).1, b ≠ 0 := by
  induction l generalizing n with
  | nil => cases n <;> simp [takeBlock]
  | cons b rest ih =>
    cases n with
    | zero => simp [takeBlock]
    | succ m =>
      by_cases hb : b = 0
      · simp [takeBlock, hb]
      · intro x hx
        simp [takeBlock, hb] at hx
        rcases hx with rfl | hx
        · exact hb
        · exact ih m x hx

theorem takeBlock_rem (n : Nat) (l : List Nat)
    (h : (takeBlock n l).1.length < n) :
    (takeBlock n l).2 = [] ∨ ∃ t, (takeBlock n l).2 = 0 :: t := by
  induction l generalizing n with
  | nil => cases n <;> simp [takeBlock]
  | cons b rest ih =>
    cases n with
    | zero => omega
    | succ m =>
      by_cases hb : b = 0
      · right
        subst hb
        simp [takeBlock]
      · simp [takeBlock, hb] at h ⊢
        exact ih m (by omega)

def cobsEncodeF : Nat → List Nat → List Nat
  | 0, _ => []
  | fuel + 1, l =>
    if (takeBlock 254 l).1.length = 254 then
      if (takeBlock 254 l).2.isEmpty then 255 :: (takeBlock 254 l).1
      else 255 :: (takeBlock 254 l).1 ++ cobsEncodeF fuel (takeBlock 254 l).2
    else
      match (takeBlock 254 l).2 with
      | [] => ((takeBlock 254 l).1.length + 1) :: (takeBlock 254 l).1
      | _ :: rest2 =>
        ((takeBlock 254 l).1.length + 1) :: (takeBlock 254 l).1 ++ cobsEncodeF fuel rest2

/-- COBS encoding.  The fuel argument of cobsEncodeF is structural
head-room only; one unit is consumed per emitted group and every group
consumes at least one input byte, so length + 1 fuel always suffices. -/
def cobsEncode (l : List Nat) : List Nat := cobsEncodeF (l.length + 1) l

def cobsDecodeF : Nat → List Nat → Option (List Nat)
  | 0, _ => none
  | _ + 1, [] => some []
  | fuel + 1, code :: rest =>
    if code = 0 then none
    else if rest.length < code - 1 then none
    else
      match cobsDecodeF fuel (rest.drop (code - 1)) with
      | none => none
      | some tail =>
        if code < 255 ∧ rest.drop (code - 1) ≠ [] then
          some (rest.take (code - 1) ++ 0 :: tail)
        else some (rest.take (code - 1) ++ tail)

/-- COBS decoding (group structure reversal; a malformed chain yields
none). -/
def cobsDecode (l : List Nat) : Option (List Nat) := cobsDecodeF (l.length + 1) l

theorem cobsEncodeF_ne_nil (fuel : Nat) (l : List Nat) (h : 0 < fuel) :
    cobsEncodeF fuel l ≠ [] := by
  cases fuel with
  | zero => omega
  | succ f =>
    rw [cobsEncodeF]
    split
    · split <;> simp
    · split <;> simp

theorem cobsEncodeF_nil (fuel : Nat) (h : 0 < fuel) : cobsEncodeF fuel [] = [1] := by
  cases fuel with
  | zero => omega
  | succ f => simp [cobsEncodeF, takeBlock]

theorem cobsEncodeF_eq_full_nil (f : Nat) (l : List Nat)
    (hfull : (takeBlock 254 l).1.length = 254) (hemp : (takeBlock 254 l).2 = []) :
    cobsEncodeF (f + 1) l = 255 :: (takeBlock 254 l).1 := by
  rw [cobsEncodeF, if_pos hfull, if_pos (by simp [hemp])]

theorem cobsEncodeF_eq_full_cons (f : Nat) (l : List Nat)
    (hfull : (takeBlock 254 l).1.length = 254) (hemp : (takeBlock 254 l).2 ≠ []) :
    cobsEncodeF (f + 1) l =
      255 :: (takeBlock 254 l).1 ++ cobsEncodeF f (takeBlock 254 l).2 := by
  rw [cobsEncodeF, if_pos hfull, if_neg (by simp [hemp])]

theorem cobsEncodeF_eq_small_nil (f : Nat) (l : List Nat)
    (hfull : (takeBlock 254 l).1.length ≠ 254) (hrem : (takeBlock 254 l).2 = []) :
    cobsEncodeF (f + 1) l =
      ((takeBlock 254 l).1.length + 1) :: (takeBlock 254 l).1 := by
  rw [cobsEncodeF, if_neg hfull, hrem]

theorem cobsEncodeF_eq_small_cons (f : Nat) (l : List Nat) (b : Nat) (rest2 : List Nat)
    (hfull : (takeBlock 254 l).1.length ≠ 254)
    (hrem : (takeBlock 254 l).2 = b :: rest2) :
    cobsEncodeF (f + 1) l =
      ((takeBlock 254 l).1.length + 1) :: (takeBlock 254 l).1 ++ cobsEncodeF f rest2 := by
  rw [cobsEncodeF, if_neg hfull, hrem]

theorem cobsDecodeF_nil (fd : Nat) (h : 0 < fd) : cobsDecodeF fd [] = some [] := by
  cases fd with
  | zero => omega
  | succ f => rfl

theorem cobsDecodeF_step_full (fd : Nat) (blk tail : List Nat) (hlen : blk.length = 254) :
    cobsDecodeF (fd + 1) (255 :: blk ++ tail) =
      (cobsDecodeF fd tail).map (fun t => blk ++ t) := by
  simp only [cobsDecodeF, List.append_eq]
  rw [if_neg (by omega)]
  have h254 : (255 : Nat) - 1 = 254 := rfl
  rw [if_neg (by rw [h254, List.length_append, hlen]; omega)]
  rw [h254]
  rw [List.drop_left' hlen, List.take_left' hlen]
  cases cobsDecodeF fd tail with
  | none => rfl
  | some t => simp

theorem cobsDecodeF_step_small (fd k : Nat) (blk tail : List Nat)
    (hlen : blk.length = k) (hk : k < 254) :
    cobsDecodeF (fd + 1) ((k + 1) :: blk ++ tail) =
      match cobsDecodeF fd tail with
      | none => none
      | some t => if tail = [] then some (blk ++ t) else some (blk ++ 0 :: t) := by
  simp only [cobsDecodeF, List.append_eq]
  rw [if_neg (by omega)]
  have hc : k + 1 - 1 = k := by omega
  rw [if_neg (by rw [hc, List.length_append, hlen]; omega)]
  rw [hc, List.drop_left' hlen, List.take_left' hlen]
  cases htail : cobsDecodeF fd tail with
  | none => rfl
  | some t =>
    by_cases hte : tail = []
    · simp [hte]
    · have hklt : k + 1 < 255 := by omega
      simp [hte, hklt]

theorem cobsDecodeF_encodeF (fe : Nat) : ∀ (l : List Nat) (fd : Nat),
    l.length < fe → (cobsEncodeF fe l).length < fd →
    cobsDecodeF fd (cobsEncodeF fe l) = some l := by
  induction fe with
  | zero => intro l fd h _; omega
  | succ f ih =>
    intro l fd hl hfd
    have hap : (takeBlock 254 l).1 ++ (takeBlock 254 l).2 = l := takeBlock_append 254 l
    have hlen : (takeBlock 254 l).1.length + (takeBlock 254 l).2.length = l.length := by
      rw [← List.length_append, hap]
    by_cases hfull : (takeBlock 254 l).1.length = 254
    · rcases hrem : (takeBlock 254 l).2 with _ | ⟨b, rest2⟩
      · have henc := cobsEncodeF_eq_full_nil f l hfull hrem
        have henc2 : cobsEncodeF (f + 1) l = 255 :: (takeBlock 254 l).1 ++ [] := by
          rw [henc]
          simp
        rw [henc2] at hfd ⊢
        cases fd with
        | zero => simp at hfd
        | succ fd =>
          rw [cobsDecodeF_step_full fd _ [] hfull]
          rw [cobsDecodeF_nil fd (by simp at hfd; omega)]
          have hleq := hap
          rw [hrem, List.append_nil] at hleq
          simp [hleq]
      · have henc := cobsEncodeF_eq_full_cons f l hfull (by rw [hrem]; simp)
        rw [henc] at hfd ⊢
        cases fd with
        | zero => simp at hfd
        | succ fd =>
          rw [cobsDecodeF_step_full fd _ _ hfull]
          have hp2f : (takeBlock 254 l).2.length < f := by omega
          have hrecfd : (cobsEncodeF f (takeBlock 254 l).2).length < fd := by
            simp only [List.cons_append, List.length_cons, List.length_append] at hfd
            omega
          rw [ih _ fd hp2f hrecfd]
          simp [hap]
    · have hklt : (takeBlock 254 l).1.length < 254 :=
        lt_of_le_of_ne (takeBlock_length 254 l) hfull
      rcases hrem : (takeBlock 254 l).2 with _ | ⟨b, rest2⟩
      · have henc := cobsEncodeF_eq_small_nil f l hfull hrem
        have henc2 : cobsEncodeF (f + 1) l =
            ((takeBlock 254 l).1.length + 1) :: (takeBlock 254 l).1 ++ [] := by
          rw [henc]
          simp
        rw [henc2] at hfd ⊢
        cases fd with
        | zero => simp at hfd
        | succ fd =>
          rw [cobsDecodeF_step_small fd _ _ [] rfl hklt]
          rw [cobsDecodeF_nil fd (by simp at hfd; omega)]
          have hleq := hap
          rw [hrem, List.append_nil] at hleq
          simp [hleq]
      · have hb : b = 0 := by
          rcases takeBlock_rem 254 l hklt with h0 | ⟨t, ht⟩
          · rw [hrem] at h0
            cases h0
          · rw [hrem] at ht
            exact ((List.cons.injEq b rest2 0 t).mp ht).1
        have henc := cobsEncodeF_eq_small_cons f l b rest2 hfull hrem
        rw [henc] at hfd ⊢
        cases fd with
        | zero => simp at hfd
        | succ fd =>
          rw [cobsDecodeF_step_small fd _ _ _ rfl hklt]
          have hlrest : (takeBlock 254 l).2.length = rest2.length + 1 := by
            rw [hrem]
            simp
          have hr2 : rest2.length < f := by omega
          have hrecfd : (cobsEncodeF f rest2).length < fd := by
            simp only [List.cons_append, List.length_cons, List.length_append] at hfd
            omega
          rw [ih rest2 fd hr2 hrecfd]
          have hne : cobsEncodeF f rest2 ≠ [] :=
            cobsEncodeF_ne_nil f rest2 (by omega)
          have hleq := hap
          rw [hrem, hb] at hleq
          simp [hne, hleq]

theorem cobsDecode_encode (l : List Nat) : cobsDecode (cobsEncode l) = some l := by
  unfold cobsDecode cobsEncode
  exact cobsDecodeF_encodeF (l.length + 1) l _ (by omega) (by omega)

theorem cobsEncodeF_ne_zero (fe : Nat) : ∀ (l : List Nat), l.length < fe →
    ∀ b ∈ cobsEncodeF fe l, b ≠ 0 := by
  induction fe with
  | zero => intro l h; omega
  | succ f ih =>
    intro l hl b hb
    have hlen : (takeBlock 254 l).1.length + (takeBlock 254 l).2.length = l.length := by
      rw [← List.length_append, takeBlock_append 254 l]
    by_cases hfull : (takeBlock 254 l).1.length = 254
    · rcases hrem : (takeBlock 254 l).2 with _ | ⟨x, rest2⟩
      · rw [cobsEncodeF_eq_full_nil f l hfull hrem] at hb
        rcases List.mem_cons.1 hb with rfl | hmem
        · omega
        · exact takeBlock_ne_zero 254 l b hmem
      · rw [cobsEncodeF_eq_full_cons f l hfull (by rw [hrem]; simp)] at hb
        rw [List.cons_append, List.mem_cons, List.mem_append] at hb
        rcases hb with rfl | hmem | hmem
        · omega
        · exact takeBlock_ne_zero 254 l b hmem
        · exact ih (takeBlock 254 l).2 (by omega) b hmem
    · rcases hrem : (takeBlock 254 l).2 with _ | ⟨x, rest2⟩
      · rw [cobsEncodeF_eq_small_nil f l hfull hrem] at hb
        rcases List.mem_cons.1 hb with rfl | hmem
        · omega
        · exact takeBlock_ne_zero 254 l b hmem
      · rw [cobsEncodeF_eq_small_cons f l x rest2 hfull hrem] at hb
        rw [List.cons_append, List.mem_cons, List.mem_append] at hb
        have hr2 : rest2.length < f := by
          have hx : (takeBlock 254 l).2.length = rest2.length + 1 := by
            rw [hrem]
            simp
          omega
        rcases hb with rfl | hmem | hmem
        · omega
        · exact takeBlock_ne_zero 254 l b hmem
        · exact ih rest2 hr2 b hmem

theorem cobsEncode_ne_zero (l : List Nat) : ∀ b ∈ cobsEncode l, b ≠ 0 :=
  cobsEncodeF_ne_zero (l.length + 1) l (by omega)

/-- cobs::max_encoding_length from the cobs crate, mirrored in
src/proto/src/lib.rs as cobs_max_length. -/
def cobs_max_length (source_len : Nat) : Nat :=
  source_len + source_len / 254 + (if source_len % 254 > 0 then 1 else 0)

theorem cobs_max_length_eq (n : Nat) : cobs_max_length n = n + (n + 253) / 254 := by
  unfold cobs_max_length
  by_cases h : n % 254 > 0
  · rw [if_pos h]
    omega
  · rw [if_neg h]
    omega

theorem cobsEncodeF_length (fe : Nat) : ∀ (l : List Nat), l.length < fe →
    1 ≤ l.length → (cobsEncodeF fe l).length ≤ cobs_max_length l.length := by
  induction fe with
  | zero => intro l h; omega
  | succ f ih =>
    intro l hl hl1
    have hlen : (takeBlock 254 l).1.length + (takeBlock 254 l).2.length = l.length := by
      rw [← List.length_append, takeBlock_append 254 l]
    rw [cobs_max_length_eq]
    by_cases hfull : (takeBlock 254 l).1.length = 254
    · rcases hrem : (takeBlock 254 l).2 with _ | ⟨x, rest2⟩
      · rw [cobsEncodeF_eq_full_nil f l hfull hrem]
        have hp2 : (takeBlock 254 l).2.length = 0 := by
          rw [hrem]
          rfl
        simp only [List.length_cons]
        omega
      · rw [cobsEncodeF_eq_full_cons f l hfull (by rw [hrem]; simp)]
        have hp2pos : 1 ≤ (takeBlock 254 l).2.length := by
          rw [hrem]
          simp
        have hrec := ih (takeBlock 254 l).2 (by omega) hp2pos
        rw [cobs_max_length_eq] at hrec
        simp only [List.cons_append, List.length_cons, List.length_append]
        omega
    · have hklt : (takeBlock 254 l).1.length < 254 :=
        lt_of_le_of_ne (takeBlock_length 254 l) hfull
      rcases hrem : (takeBlock 254 l).2 with _ | ⟨x, rest2⟩
      · rw [cobsEncodeF_eq_small_nil f l hfull hrem]
        have hp2 : (takeBlock 254 l).2.length = 0 := by
          rw [hrem]
          rfl
        simp only [List.length_cons]
        omega
      · rw [cobsEncodeF_eq_small_cons f l x rest2 hfull hrem]
        have hlrest : (takeBlock 254 l).2.length = rest2.length + 1 := by
          rw [hrem]
          simp
        simp only [List.cons_append, List.length_cons, List.length_append]
        rcases Nat.eq_zero_or_pos rest2.length with hr0 | hrpos
        · have hr2nil : rest2 = [] := List.eq_nil_of_length_eq_zero hr0
          rw [hr2nil, cobsEncodeF_nil f (by omega)]
          simp only [List.length_cons, List.length_nil]
          omega
        · have hrec := ih rest2 (by omega) hrpos
          rw [cobs_max_length_eq] at hrec
          omega

theorem cobsEncode_length (l : List Nat) (h : 1 ≤ l.length) :
    (cobsEncode l).length ≤ cobs_max_length l.length :=
  cobsEncodeF_length (l.length + 1) l (by omega) h

theorem cobs_max_length_mono (m n : Nat) (h : m ≤ n) :
    cobs_max_length m ≤ cobs_max_length n := by
  rw [cobs_max_length_eq, cobs_max_length_eq]
  omega

/-! ### Serialized length bounds (postcard MaxSize per record type) -/

/-- Largest serialized size of a Command: the Data variant, 1 + 8. -/
def Command.POSTCARD_MAX_SIZE : Nat := 9

/-- Largest serialized size of a Response: the TimerDebug variant,
1 + 10 + 5 + 1 + 1. -/
def Response.POSTCARD_MAX_SIZE : Nat := 18

/-- Largest serialized size of a KeyUpdate: length prefix plus 35
one-byte coordinates. -/
def KeyUpdate.POSTCARD_MAX_SIZE : Nat := 36

theorem serCommand_length (x : Command) (hwf : x.wf) :
    (serCommand x).length ≤ Command.POSTCARD_MAX_SIZE := by
  unfold Command.POSTCARD_MAX_SIZE
  cases x with
  | Reset => simp [serCommand]
  | UsbDfu => simp [serCommand]
  | EchoMsg n =>
    have hb : n < 2 ^ (7 * 3) := by
      have h16 : n < 2 ^ 16 := hwf
      norm_num at h16 ⊢
      omega
    have := varintEnc_length n 3 (by norm_num) hb
    simp [serCommand]
    omega
  | Data d =>
    have hlen : d.length = DATA_COUNT := hwf.1
    simp [serCommand, hlen, DATA_COUNT]

theorem serProtoError_length (e : ProtoError) : (serProtoError e).length ≤ 3 := by
  cases e <;> simp [serProtoError]

theorem serNackType_length (n : NackType) : (serNackType n).length ≤ 4 := by
  cases n with
  | PacketErr e =>
    have := serProtoError_length e
    simp [serNackType]
    omega
  | Unexpected => simp [serNackType]
  | BufferOverflow => simp [serNackType]

theorem serTimerDebug_length (td : TimerDebug) (hwf : td.wf) :
    (serTimerDebug td).length ≤ 17 := by
  obtain ⟨h1, h2⟩ := hwf
  have hb1 : td.current_time < 2 ^ (7 * 10) := by
    norm_num at h1 ⊢
    omega
  have hb2 : td.fire_time < 2 ^ (7 * 5) := by
    norm_num at h2 ⊢
    omega
  have e1 := varintEnc_length td.current_time 10 (by norm_num) hb1
  have e2 := varintEnc_length td.fire_time 5 (by norm_num) hb2
  simp [serTimerDebug]
  omega

theorem serResponse_length (x : Response) (hwf : x.wf) :
    (serResponse x).length ≤ Response.POSTCARD_MAX_SIZE := by
  unfold Response.POSTCARD_MAX_SIZE
  cases x with
  | Ack a => cases a <;> simp [serResponse, serAckType]
  | Nack n =>
    have := serNackType_length n
    simp [serResponse]
    omega
  | EchoMsg n =>
    have hb : n < 2 ^ (7 * 3) := by
      have h16 : n < 2 ^ 16 := hwf
      norm_num at h16 ⊢
      omega
    have := varintEnc_length n 3 (by norm_num) hb
    simp [serResponse]
    omega
  | Data d =>
    have hlen : d.length = DATA_COUNT := hwf.1
    simp [serResponse, hlen, DATA_COUNT]
  | TimerDebug td =>
    have := serTimerDebug_length td hwf
    simp [serResponse]
    omega

theorem serKeyUpdate_length (ku : KeyUpdate) (hwf : ku.wf) :
    (serKeyUpdate ku).length ≤ KeyUpdate.POSTCARD_MAX_SIZE := by
  unfold KeyUpdate.POSTCARD_MAX_SIZE
  have h1 : ku.keys.length ≤ 35 := by
    have := hwf.1
    unfold NUM_KEYS NUM_ROWS NUM_COLS at this
    omega
  have hb : ku.keys.length < 2 ^ (7 * 1) := by norm_num; omega
  have := varintEnc_length ku.keys.length 1 (by norm_num) hb
  simp [serKeyUpdate]
  omega

/-! ### Framing layer (src/proto/src/proto_impl.rs).

The generic Rust functions are embedded with the serializer /
deserializer and the type's CS_MAX_SIZE / WIRE_MAX_SIZE trait constants
passed explicitly; N is the caller-chosen buffer capacity.  The snapshot's
proto_impl.rs predates the ucid argument of the ProtoError constructor
helpers, so ucid 0 is passed; nothing proved below depends on it. -/

/-- WIRE_MAX_SIZE from the blanket WireSize impl in src/proto/src/lib.rs:
postcard max size, plus one CRC byte, cobs-encoded, plus one sentinel. -/
def WIRE_MAX_SIZE (pmax : Nat) : Nat := cobs_max_length (pmax + 1) + 1

/-- CS_MAX_SIZE from the blanket WireSize impl in src/proto/src/lib.rs. -/
def CS_MAX_SIZE (pmax : Nat) : Nat := pmax + 1

/-- postcard::to_vec into a capacity-N heapless Vec: fails when the
serialized output exceeds N. -/
def postcard_to_vec {α : Type} (ser : α → List Nat) (N : Nat) (x : α) :
    Except ProtoError (List Nat) :=
  if (ser x).length ≤ N then .ok (ser x) else .error (.PostcardError 0)

/-- postcard::from_bytes: deserialize from the front of the slice,
ignoring any trailing bytes. -/
def postcard_from_bytes {α : Type} (des : List Nat → Except ProtoError (α × List Nat))
    (l : List Nat) : Except ProtoError α :=
  (des l).map Prod.fst

/-- cs_encode from src/proto/src/proto_impl.rs: serialize, then append
the CRC byte. -/
def cs_encode {α : Type} (ser : α → List Nat) (csMax N : Nat) (x : α) :
    Except ProtoError (List Nat) :=
  if N < csMax then .error (.BufferSize 0)
  else do
    let buf ← postcard_to_vec ser N x
    if buf.length + 1 ≤ N then .ok (buf ++ [crc8 buf])
    else .error (.Invariant 0 0x1)

/-- wire_encode from src/proto/src/proto_impl.rs: cs_encode, then cobs
escape-encode, then append the 0 sentinel. -/
def wire_encode {α : Type} (ser : α → List Nat) (csMax wireMax N : Nat) (x : α) :
    Except ProtoError (List Nat) :=
  if N < wireMax then .error (.BufferSize 0)
  else do
    let buf ← cs_encode ser csMax N x
    let enc := cobsEncode buf
    if enc.length ≤ N then
      if enc.length + 1 ≤ N then .ok (enc ++ [0])
      else .error (.Invariant 0 0x4)
    else .error (.Invariant 0 0x3)

/-- cs_decode from src/proto/src/proto_impl.rs: empty input is
BadLength; the last byte must be the CRC of the preceding bytes;
then postcard-decode. -/
def cs_decode {α : Type} (des : List Nat → Except ProtoError (α × List Nat))
    (buf : List Nat) : Except ProtoError α :=
  match buf.getLast? with
  | none => .error (.BadLength 0 0)
  | some actual_crc =>
    let message_buf := buf.dropLast
    let calc_crc := crc8 message_buf
    if actual_crc ≠ calc_crc then .error (.CrcMismatch calc_crc actual_crc)
    else postcard_from_bytes des message_buf

/-- wire_decode from src/proto/src/proto_impl.rs: require the trailing 0
sentinel, cobs-decode in place, then cs_decode. -/
def wire_decode {α : Type} (des : List Nat → Except ProtoError (α × List Nat))
    (buf : List Nat) : Except ProtoError α :=
  if buf.getLast? ≠ some 0 then .error (.Invariant 0 0x5)
  else
    match cobsDecode buf.dropLast with
    | none => .error (.Invariant 0 0x6)
    | some payload => cs_decode des payload

/-! ### Host-side framing (src/cli/src/main.rs) -/

/-- send_command from src/cli/src/main.rs: postcard bytes, CRC byte,
cobs::encode_vec, trailing 0 sentinel. -/
def send_command {α : Type} (ser : α → List Nat) (x : α) : List Nat :=
  let bytes := ser x
  let with_crc := bytes ++ [crc8 bytes]
  cobsEncode with_crc ++ [0]

/-- BufRead::read_until(0): consume bytes up to and including the first
0, or the whole input when no 0 occurs. -/
def read_until_zero (l : List Nat) : List Nat × List Nat :=
  (l.takeWhile (· ≠ 0) ++ (l.dropWhile (· ≠ 0)).take 1,
   (l.dropWhile (· ≠ 0)).drop 1)

/-- recv_response from src/cli/src/main.rs, applied to the bytes
returned by read_until(0): pop the sentinel (which must be 0),
cobs-decode, pop and check the CRC, postcard-decode.  All host-side
anyhow errors (and the panic on a missing or non-zero sentinel) are
collapsed to none. -/
def recv_response {α : Type} (des : List Nat → Except ProtoError (α × List Nat))
    (read_buf : List Nat) : Option α :=
  match read_buf.getLast? with
  | none => none
  | some s =>
    if s ≠ 0 then none
    else
      match cobsDecode read_buf.dropLast with
      | none => none
      | some cobs_decoded =>
        match cobs_decoded.getLast? with
        | none => none
        | some actual_crc =>
          let body := cobs_decoded.dropLast
          if crc8 body ≠ actual_crc then none
          else
            match des body with
            | .ok (v, _) => some v
            | .error _ => none

/-! ### Encode success and round trips, generically -/

theorem cs_encode_ok {α : Type} (ser : α → List Nat) (pmax N : Nat) (x : α)
    (hser : (ser x).length ≤ pmax) (hN : pmax + 1 ≤ N) :
    cs_encode ser (CS_MAX_SIZE pmax) N x = .ok (ser x ++ [crc8 (ser x)]) := by
  unfold cs_encode CS_MAX_SIZE postcard_to_vec
  rw [if_neg (by omega), if_pos (by omega)]
  rw [exceptBind_ok, if_pos (by omega)]

theorem wire_encode_ok {α : Type} (ser : α → List Nat) (pmax N : Nat) (x : α)
    (hser : (ser x).length ≤ pmax) (hN : N = WIRE_MAX_SIZE pmax) :
    wire_encode ser (CS_MAX_SIZE pmax) (WIRE_MAX_SIZE pmax) N x =
      .ok (cobsEncode (ser x ++ [crc8 (ser x)]) ++ [0]) := by
  have hwm : CS_MAX_SIZE pmax ≤ WIRE_MAX_SIZE pmax := by
    unfold CS_MAX_SIZE WIRE_MAX_SIZE
    rw [cobs_max_length_eq]
    omega
  have henclen : (cobsEncode (ser x ++ [crc8 (ser x)])).length ≤
      cobs_max_length (pmax + 1) := by
    have h1 := cobsEncode_length (ser x ++ [crc8 (ser x)]) (by simp)
    have h2 : (ser x ++ [crc8 (ser x)]).length ≤ pmax + 1 := by
      simp
      omega
    exact le_trans h1 (cobs_max_length_mono _ _ h2)
  unfold wire_encode
  rw [if_neg (by omega)]
  rw [cs_encode_ok ser pmax N x hser (by
    unfold WIRE_MAX_SIZE at hN
    rw [cobs_max_length_eq] at hN
    omega)]
  rw [exceptBind_ok]
  unfold WIRE_MAX_SIZE at hN
  rw [if_pos (by omega), if_pos (by omega)]

theorem cs_decode_encoded {α : Type} (ser : α → List Nat)
    (des : List Nat → Except ProtoError (α × List Nat)) (x : α)
    (hrt : des (ser x) = .ok (x, [])) :
    cs_decode des (ser x ++ [crc8 (ser x)]) = .ok x := by
  unfold cs_decode
  simp only [List.getLast?_concat, List.dropLast_concat]
  rw [if_neg (by simp)]
  unfold postcard_from_bytes
  rw [hrt]
  rfl

theorem wire_decode_encoded {α : Type}
    (des : List Nat → Except ProtoError (α × List Nat)) (payload : List Nat) :
    wire_decode des (cobsEncode payload ++ [0]) = cs_decode des payload := by
  unfold wire_decode
  rw [if_neg (by simp)]
  simp only [List.dropLast_concat]
  rw [cobsDecode_encode]

theorem recv_response_encoded {α : Type} (ser : α → List Nat)
    (des : List Nat → Except ProtoError (α × List Nat)) (x : α)
    (hrt : des (ser x) = .ok (x, [])) :
    recv_response des (cobsEncode (ser x ++ [crc8 (ser x)]) ++ [0]) = some x := by
  unfold recv_response
  simp only [List.getLast?_concat, List.dropLast_concat]
  rw [if_neg (by simp)]
  rw [cobsDecode_encode]
  simp only [List.getLast?_concat, List.dropLast_concat]
  rw [if_neg (by simp)]
  rw [hrt]

/-! ### Per-type instantiations (monomorphizations used by the firmware
and the CLI) -/

def Command.CS_MAX_SIZE : Nat := Picodox.CS_MAX_SIZE Command.POSTCARD_MAX_SIZE
def Command.WIRE_MAX_SIZE : Nat := Picodox.WIRE_MAX_SIZE Command.POSTCARD_MAX_SIZE
def Response.CS_MAX_SIZE : Nat := Picodox.CS_MAX_SIZE Response.POSTCARD_MAX_SIZE
def Response.WIRE_MAX_SIZE : Nat := Picodox.WIRE_MAX_SIZE Response.POSTCARD_MAX_SIZE
def KeyUpdate.CS_MAX_SIZE : Nat := Picodox.CS_MAX_SIZE KeyUpdate.POSTCARD_MAX_SIZE
def KeyUpdate.WIRE_MAX_SIZE : Nat := Picodox.WIRE_MAX_SIZE KeyUpdate.POSTCARD_MAX_SIZE

def wire_encode_cmd (x : Command) : Except ProtoError (List Nat) :=
  wire_encode serCommand Command.CS_MAX_SIZE Command.WIRE_MAX_SIZE Command.WIRE_MAX_SIZE x

def wire_decode_cmd (buf : List Nat) : Except ProtoError Command :=
  wire_decode desCommand buf

def cs_encode_cmd (x : Command) : Except ProtoError (List Nat) :=
  cs_encode serCommand Command.CS_MAX_SIZE Command.CS_MAX_SIZE x

def cs_decode_cmd (buf : List Nat) : Except ProtoError Command :=
  cs_decode desCommand buf

def wire_encode_resp (x : Response) : Except ProtoError (List Nat) :=
  wire_encode serResponse Response.CS_MAX_SIZE Response.WIRE_MAX_SIZE Response.WIRE_MAX_SIZE x

def wire_decode_resp (buf : List Nat) : Except ProtoError Response :=
  wire_decode desResponse buf

def cs_encode_resp (x : Response) : Except ProtoError (List Nat) :=
  cs_encode serResponse Response.CS_MAX_SIZE Response.CS_MAX_SIZE x

def cs_decode_resp (buf : List Nat) : Except ProtoError Response :=
  cs_decode desResponse buf

def wire_encode_key (x : KeyUpdate) : Except ProtoError (List Nat) :=
  wire_encode serKeyUpdate KeyUpdate.CS_MAX_SIZE KeyUpdate.WIRE_MAX_SIZE KeyUpdate.WIRE_MAX_SIZE x

def wire_decode_key (buf : List Nat) : Except ProtoError KeyUpdate :=
  wire_decode desKeyUpdate buf

def cs_encode_key (x : KeyUpdate) : Except ProtoError (List Nat) :=
  cs_encode serKeyUpdate KeyUpdate.CS_MAX_SIZE KeyUpdate.CS_MAX_SIZE x

def cs_decode_key (buf : List Nat) : Except ProtoError KeyUpdate :=
  cs_decode desKeyUpdate buf

/-! ### Per-type encode results -/

theorem wire_encode_cmd_eq (c : Command) (hc : c.wf) :
    wire_encode_cmd c = .ok (cobsEncode (serCommand c ++ [crc8 (serCommand c)]) ++ [0]) :=
  wire_encode_ok serCommand Command.POSTCARD_MAX_SIZE _ c (serCommand_length c hc) rfl

theorem cs_encode_cmd_eq (c : Command) (hc : c.wf) :
    cs_encode_cmd c = .ok (serCommand c ++ [crc8 (serCommand c)]) :=
  cs_encode_ok serCommand Command.POSTCARD_MAX_SIZE _ c (serCommand_length c hc)
    (le_refl _)

theorem wire_encode_resp_eq (r : Response) (hr : r.wf) :
    wire_encode_resp r = .ok (cobsEncode (serResponse r ++ [crc8 (serResponse r)]) ++ [0]) :=
  wire_encode_ok serResponse Response.POSTCARD_MAX_SIZE _ r (serResponse_length r hr) rfl

theorem cs_encode_resp_eq (r : Response) (hr : r.wf) :
    cs_encode_resp r = .ok (serResponse r ++ [crc8 (serResponse r)]) :=
  cs_encode_ok serResponse Response.POSTCARD_MAX_SIZE _ r (serResponse_length r hr)
    (le_refl _)

theorem wire_encode_key_eq (k : KeyUpdate) (hk : k.wf) :
    wire_encode_key k = .ok (cobsEncode (serKeyUpdate k ++ [crc8 (serKeyUpdate k)]) ++ [0]) :=
  wire_encode_ok serKeyUpdate KeyUpdate.POSTCARD_MAX_SIZE _ k (serKeyUpdate_length k hk) rfl

theorem cs_encode_key_eq (k : KeyUpdate) (hk : k.wf) :
    cs_encode_key k = .ok (serKeyUpdate k ++ [crc8 (serKeyUpdate k)]) :=
  cs_encode_ok serKeyUpdate KeyUpdate.POSTCARD_MAX_SIZE _ k (serKeyUpdate_length k hk)
    (le_refl _)

theorem desCommand_ser_nil (c : Command) (hc : c.wf) :
    desCommand (serCommand c) = .ok (c, []) := by
  have h := desCommand_ser c hc []
  rwa [List.append_nil] at h

theorem desResponse_ser_nil (r : Response) (hr : r.wf) :
    desResponse (serResponse r) = .ok (r, []) := by
  have h := desResponse_ser r hr []
  rwa [List.append_nil] at h

theorem desKeyUpdate_ser_nil (k : KeyUpdate) (hk : k.wf) :
    desKeyUpdate (serKeyUpdate k) = .ok (k, []) := by
  have h := desKeyUpdate_ser k hk []
  rwa [List.append_nil] at h

theorem wire_frame_length {α : Type} (ser : α → List Nat) (pmax : Nat) (x : α)
    (hser : (ser x).length ≤ pmax) :
    (cobsEncode (ser x ++ [crc8 (ser x)]) ++ [0]).length ≤ WIRE_MAX_SIZE pmax := by
  have h1 := cobsEncode_length (ser x ++ [crc8 (ser x)]) (by simp)
  have h2 : (ser x ++ [crc8 (ser x)]).length ≤ pmax + 1 := by
    simp
    omega
  have h3 := cobs_max_length_mono _ _ h2
  unfold WIRE_MAX_SIZE
  simp
  omega

/-- C1: decoding the encoding returns the original value, for every
well-formed Command, Response, and KeyUpdate value, under both framing
variants: wire_encode / wire_decode (escape encoding plus CRC plus 0x00
delimiter) and cs_encode / cs_decode (CRC only); and cross
implementation: the frame produced by the host-side send_command path is
byte-identical to the device-side wire_encode output and decodes through
the device-side wire_decode, while the device-side wire_encode output is
accepted by the host-side recv_response path. -/
theorem c1_roundtrip (c : Command) (r : Response) (k : KeyUpdate)
    (hc : c.wf) (hr : r.wf) (hk : k.wf) :
    (∃ f, wire_encode_cmd c = .ok f ∧ wire_decode_cmd f = .ok c ∧
      send_command serCommand c = f) ∧
    (∃ b, cs_encode_cmd c = .ok b ∧ cs_decode_cmd b = .ok c) ∧
    (∃ f, wire_encode_resp r = .ok f ∧ wire_decode_resp f = .ok r ∧
      recv_response desResponse f = some r) ∧
    (∃ b, cs_encode_resp r = .ok b ∧ cs_decode_resp b = .ok r) ∧
    (∃ f, wire_encode_key k = .ok f ∧ wire_decode_key f = .ok k) ∧
    (∃ b, cs_encode_key k = .ok b ∧ cs_decode_key b = .ok k) := by
  refine ⟨⟨_, wire_encode_cmd_eq c hc, ?_, rfl⟩,
    ⟨_, cs_encode_cmd_eq c hc, ?_⟩,
    ⟨_, wire_encode_resp_eq r hr, ?_, ?_⟩,
    ⟨_, cs_encode_resp_eq r hr, ?_⟩,
    ⟨_, wire_encode_key_eq k hk, ?_⟩,
    ⟨_, cs_encode_key_eq k hk, ?_⟩⟩
  · unfold wire_decode_cmd
    rw [wire_decode_encoded]
    exact cs_decode_encoded serCommand desCommand c (desCommand_ser_nil c hc)
  · exact cs_decode_encoded serCommand desCommand c (desCommand_ser_nil c hc)
  · unfold wire_decode_resp
    rw [wire_decode_encoded]
    exact cs_decode_encoded serResponse desResponse r (desResponse_ser_nil r hr)
  · exact recv_response_encoded serResponse desResponse r (desResponse_ser_nil r hr)
  · exact cs_decode_encoded serResponse desResponse r (desResponse_ser_nil r hr)
  · unfold wire_decode_key
    rw [wire_decode_encoded]
    exact cs_decode_encoded serKeyUpdate desKeyUpdate k (desKeyUpdate_ser_nil k hk)
  · exact cs_decode_encoded serKeyUpdate desKeyUpdate k (desKeyUpdate_ser_nil k hk)

/-- C1 witness: the round-trip theorem applied at concrete values. -/
theorem c1_roundtrip_witness :
    (Command.EchoMsg 300).wf ∧
    (Response.Nack (.PacketErr (.CrcMismatch 17 19))).wf ∧
    (KeyUpdate.mk [8, 12, 1]).wf ∧
    ((∃ f, wire_encode_cmd (Command.EchoMsg 300) = .ok f ∧
        wire_decode_cmd f = .ok (Command.EchoMsg 300) ∧
        send_command serCommand (Command.EchoMsg 300) = f) ∧
      (∃ b, cs_encode_cmd (Command.EchoMsg 300) = .ok b ∧
        cs_decode_cmd b = .ok (Command.EchoMsg 300)) ∧
      (∃ f, wire_encode_resp (Response.Nack (.PacketErr (.CrcMismatch 17 19))) = .ok f ∧
        wire_decode_resp f = .ok (Response.Nack (.PacketErr (.CrcMismatch 17 19))) ∧
        recv_response desResponse f = some (Response.Nack (.PacketErr (.CrcMismatch 17 19)))) ∧
      (∃ b, cs_encode_resp (Response.Nack (.PacketErr (.CrcMismatch 17 19))) = .ok b ∧
        cs_decode_resp b = .ok (Response.Nack (.PacketErr (.CrcMismatch 17 19)))) ∧
      (∃ f, wire_encode_key (KeyUpdate.mk [8, 12, 1]) = .ok f ∧
        wire_decode_key f = .ok (KeyUpdate.mk [8, 12, 1])) ∧
      (∃ b, cs_encode_key (KeyUpdate.mk [8, 12, 1]) = .ok b ∧
        cs_decode_key b = .ok (KeyUpdate.mk [8, 12, 1]))) :=
  ⟨by decide, by decide, by decide,
    c1_roundtrip (Command.EchoMsg 300) (Response.Nack (.PacketErr (.CrcMismatch 17 19)))
      (KeyUpdate.mk [8, 12, 1]) (by decide) (by decide) (by decide)⟩

/-- C2: for each record type, the escape-framed encoding is no longer
than WIRE_MAX_SIZE and the CRC-only encoding is no longer than
CS_MAX_SIZE, where WIRE_MAX_SIZE = payload + 1 + ceil((payload + 1) /
254) + 1 and CS_MAX_SIZE = payload + 1 for payload the maximum
serialized size of the type (attained by an explicit value of each
type). -/
theorem c2_length_bounds (c : Command) (r : Response) (k : KeyUpdate)
    (hc : c.wf) (hr : r.wf) (hk : k.wf) :
    (∃ out, wire_encode_cmd c = .ok out ∧ out.length ≤ Command.WIRE_MAX_SIZE) ∧
    (∃ out, cs_encode_cmd c = .ok out ∧ out.length ≤ Command.CS_MAX_SIZE) ∧
    (∃ out, wire_encode_resp r = .ok out ∧ out.length ≤ Response.WIRE_MAX_SIZE) ∧
    (∃ out, cs_encode_resp r = .ok out ∧ out.length ≤ Response.CS_MAX_SIZE) ∧
    (∃ out, wire_encode_key k = .ok out ∧ out.length ≤ KeyUpdate.WIRE_MAX_SIZE) ∧
    (∃ out, cs_encode_key k = .ok out ∧ out.length ≤ KeyUpdate.CS_MAX_SIZE) ∧
    (Command.WIRE_MAX_SIZE =
      Command.POSTCARD_MAX_SIZE + 1 + (Command.POSTCARD_MAX_SIZE + 1 + 253) / 254 + 1 ∧
      Command.CS_MAX_SIZE = Command.POSTCARD_MAX_SIZE + 1) ∧
    (Response.WIRE_MAX_SIZE =
      Response.POSTCARD_MAX_SIZE + 1 + (Response.POSTCARD_MAX_SIZE + 1 + 253) / 254 + 1 ∧
      Response.CS_MAX_SIZE = Response.POSTCARD_MAX_SIZE + 1) ∧
    (KeyUpdate.WIRE_MAX_SIZE =
      KeyUpdate.POSTCARD_MAX_SIZE + 1 + (KeyUpdate.POSTCARD_MAX_SIZE + 1 + 253) / 254 + 1 ∧
      KeyUpdate.CS_MAX_SIZE = KeyUpdate.POSTCARD_MAX_SIZE + 1) ∧
    (∃ c0 : Command, c0.wf ∧ (serCommand c0).length = Command.POSTCARD_MAX_SIZE) ∧
    (∃ r0 : Response, r0.wf ∧ (serResponse r0).length = Response.POSTCARD_MAX_SIZE) ∧
    (∃ k0 : KeyUpdate, k0.wf ∧ (serKeyUpdate k0).length = KeyUpdate.POSTCARD_MAX_SIZE) := by
  refine ⟨⟨_, wire_encode_cmd_eq c hc,
      wire_frame_length serCommand Command.POSTCARD_MAX_SIZE c (serCommand_length c hc)⟩,
    ⟨_, cs_encode_cmd_eq c hc, ?_⟩,
    ⟨_, wire_encode_resp_eq r hr,
      wire_frame_length serResponse Response.POSTCARD_MAX_SIZE r (serResponse_length r hr)⟩,
    ⟨_, cs_encode_resp_eq r hr, ?_⟩,
    ⟨_, wire_encode_key_eq k hk,
      wire_frame_length serKeyUpdate KeyUpdate.POSTCARD_MAX_SIZE k (serKeyUpdate_length k hk)⟩,
    ⟨_, cs_encode_key_eq k hk, ?_⟩,
    ⟨by decide, by decide⟩, ⟨by decide, by decide⟩, ⟨by decide, by decide⟩,
    ⟨Command.Data [0, 0, 0, 0, 0, 0, 0, 0], by decide, by decide⟩,
    ⟨Response.TimerDebug ⟨2 ^ 64 - 1, 2 ^ 32 - 1, true, true⟩, by decide, by decide⟩,
    ⟨KeyUpdate.mk (List.replicate 35 0), by decide, by decide⟩⟩
  · have := serCommand_length c hc
    unfold Command.CS_MAX_SIZE Picodox.CS_MAX_SIZE
    simp
    omega
  · have := serResponse_length r hr
    unfold Response.CS_MAX_SIZE Picodox.CS_MAX_SIZE
    simp
    omega
  · have := serKeyUpdate_length k hk
    unfold KeyUpdate.CS_MAX_SIZE Picodox.CS_MAX_SIZE
    simp
    omega

/-- C2 witness: the length-bound theorem applied at concrete values. -/
theorem c2_length_bounds_witness :
    Command.Reset.wf ∧ (Response.EchoMsg 9).wf ∧ (KeyUpdate.mk []).wf ∧
    ((∃ out, wire_encode_cmd Command.Reset = .ok out ∧
        out.length ≤ Command.WIRE_MAX_SIZE) ∧
      (∃ out, cs_encode_cmd Command.Reset = .ok out ∧
        out.length ≤ Command.CS_MAX_SIZE) ∧
      (∃ out, wire_encode_resp (Response.EchoMsg 9) = .ok out ∧
        out.length ≤ Response.WIRE_MAX_SIZE) ∧
      (∃ out, cs_encode_resp (Response.EchoMsg 9) = .ok out ∧
        out.length ≤ Response.CS_MAX_SIZE) ∧
      (∃ out, wire_encode_key (KeyUpdate.mk []) = .ok out ∧
        out.length ≤ KeyUpdate.WIRE_MAX_SIZE) ∧
      (∃ out, cs_encode_key (KeyUpdate.mk []) = .ok out ∧
        out.length ≤ KeyUpdate.CS_MAX_SIZE) ∧
      (Command.WIRE_MAX_SIZE =
        Command.POSTCARD_MAX_SIZE + 1 + (Command.POSTCARD_MAX_SIZE + 1 + 253) / 254 + 1 ∧
        Command.CS_MAX_SIZE = Command.POSTCARD_MAX_SIZE + 1) ∧
      (Response.WIRE_MAX_SIZE =
        Response.POSTCARD_MAX_SIZE + 1 + (Response.POSTCARD_MAX_SIZE + 1 + 253) / 254 + 1 ∧
        Response.CS_MAX_SIZE = Response.POSTCARD_MAX_SIZE + 1) ∧
      (KeyUpdate.WIRE_MAX_SIZE =
        KeyUpdate.POSTCARD_MAX_SIZE + 1 + (KeyUpdate.POSTCARD_MAX_SIZE + 1 + 253) / 254 + 1 ∧
        KeyUpdate.CS_MAX_SIZE = KeyUpdate.POSTCARD_MAX_SIZE + 1) ∧
      (∃ c0 : Command, c0.wf ∧ (serCommand c0).length = Command.POSTCARD_MAX_SIZE) ∧
      (∃ r0 : Response, r0.wf ∧ (serResponse r0).length = Response.POSTCARD_MAX_SIZE) ∧
      (∃ k0 : KeyUpdate, k0.wf ∧ (serKeyUpdate k0).length = KeyUpdate.POSTCARD_MAX_SIZE)) :=
  ⟨by decide, by decide, by decide,
    c2_length_bounds Command.Reset (Response.EchoMsg 9) (KeyUpdate.mk [])
      (by decide) (by decide) (by decide)⟩

/-! ### Decode error taxonomy: the postcard deserializers only ever fail
with PostcardError, so CrcMismatch / BadLength / Invariant results of
cs_decode and wire_decode are attributable to the framing layer alone. -/

def pOnly {β : Type} (r : Except ProtoError β) : Prop :=
  ∀ e, r = .error e → ∃ code, e = .PostcardError code

theorem pOnly_ok {β : Type} (x : β) : pOnly (Except.ok x) := by
  intro e h
  cases h

theorem pOnly_err {β : Type} (code : Nat) :
    pOnly ((Except.error (ProtoError.PostcardError code)) : Except ProtoError β) := by
  intro e h
  cases h
  exact ⟨code, rfl⟩

theorem pOnly_bind {β γ : Type} (a : Except ProtoError β)
    (f : β → Except ProtoError γ) (ha : pOnly a) (hf : ∀ x, pOnly (f x)) :
    pOnly (a >>= f) := by
  cases a with
  | ok x => exact hf x
  | error e =>
    have hbind : (Except.error e >>= f : Except ProtoError γ) = Except.error e := rfl
    rw [hbind]
    intro e2 h
    cases h
    exact ha _ rfl

theorem varintDecAux_pOnly (fuel : Nat) : ∀ (lastMax shift acc : Nat) (l : List Nat),
    pOnly (varintDecAux fuel lastMax shift acc l) := by
  induction fuel with
  | zero => intro lastMax shift acc l; exact pOnly_err 2
  | succ f ih =>
    intro lastMax shift acc l
    cases l with
    | nil => exact pOnly_err 1
    | cons b rest =>
      rw [varintDecAux]
      by_cases h : b < 128
      · rw [if_pos h]
        by_cases h2 : f = 0 ∧ lastMax ≤ b
        · rw [if_pos h2]
          exact pOnly_err 2
        · rw [if_neg h2]
          exact pOnly_ok _
      · rw [if_neg h]
        exact ih _ _ _ _

theorem popDisc_pOnly (l : List Nat) : pOnly (popDisc l) :=
  varintDecAux_pOnly 5 16 0 0 l

theorem varintDec_pOnly (maxB lastMax : Nat) (l : List Nat) :
    pOnly (varintDec maxB lastMax l) :=
  varintDecAux_pOnly maxB lastMax 0 0 l

theorem popByte_pOnly (l : List Nat) : pOnly (popByte l) := by
  cases l with
  | nil => exact pOnly_err 1
  | cons b rest => exact pOnly_ok _

theorem popBytes_pOnly (n : Nat) (l : List Nat) : pOnly (popBytes n l) := by
  unfold popBytes
  by_cases h : l.length < n
  · rw [if_pos h]
    exact pOnly_err 1
  · rw [if_neg h]
    exact pOnly_ok _

theorem popBool_pOnly (l : List Nat) : pOnly (popBool l) := by
  match l with
  | [] => exact pOnly_err 1
  | 0 :: rest => exact pOnly_ok _
  | 1 :: rest => exact pOnly_ok _
  | (n + 2) :: rest => exact pOnly_err 3

theorem desAckType_pOnly (l : List Nat) : pOnly (desAckType l) := by
  unfold desAckType
  refine pOnly_bind _ _ (popDisc_pOnly l) ?_
  rintro ⟨d, rest⟩
  match d with
  | 0 => exact pOnly_ok _
  | 1 => exact pOnly_ok _
  | 2 => exact pOnly_ok _
  | n + 3 => exact pOnly_err 4

theorem desProtoError_pOnly (l : List Nat) : pOnly (desProtoError l) := by
  unfold desProtoError
  refine pOnly_bind _ _ (popDisc_pOnly l) ?_
  rintro ⟨d, rest⟩
  match d with
  | 0 =>
    refine pOnly_bind _ _ (popByte_pOnly rest) ?_
    rintro ⟨u, r⟩
    exact pOnly_ok _
  | 1 =>
    refine pOnly_bind _ _ (popByte_pOnly rest) ?_
    rintro ⟨u, r⟩
    exact pOnly_ok _
  | 2 =>
    refine pOnly_bind _ _ (popByte_pOnly rest) ?_
    rintro ⟨u, r⟩
    refine pOnly_bind _ _ (popByte_pOnly r) ?_
    rintro ⟨u2, r2⟩
    exact pOnly_ok _
  | 3 =>
    refine pOnly_bind _ _ (popByte_pOnly rest) ?_
    rintro ⟨u, r⟩
    refine pOnly_bind _ _ (popByte_pOnly r) ?_
    rintro ⟨u2, r2⟩
    exact pOnly_ok _
  | 4 =>
    refine pOnly_bind _ _ (popByte_pOnly rest) ?_
    rintro ⟨u, r⟩
    refine pOnly_bind _ _ (popByte_pOnly r) ?_
    rintro ⟨u2, r2⟩
    exact pOnly_ok _
  | n + 5 => exact pOnly_err 4

theorem desNackType_pOnly (l : List Nat) : pOnly (desNackType l) := by
  unfold desNackType
  refine pOnly_bind _ _ (popDisc_pOnly l) ?_
  rintro ⟨d, rest⟩
  match d with
  | 0 => exact pOnly_ok _
  | 1 =>
    refine pOnly_bind _ _ (desProtoError_pOnly rest) ?_
    rintro ⟨e, r⟩
    exact pOnly_ok _
  | 2 => exact pOnly_ok _
  | n + 3 => exact pOnly_err 4

theorem desTimerDebug_pOnly (l : List Nat) : pOnly (desTimerDebug l) := by
  unfold desTimerDebug
  refine pOnly_bind _ _ (varintDec_pOnly 10 2 l) ?_
  rintro ⟨ct, r1⟩
  refine pOnly_bind _ _ (varintDec_pOnly 5 16 r1) ?_
  rintro ⟨ft, r2⟩
  refine pOnly_bind _ _ (popBool_pOnly r2) ?_
  rintro ⟨ar, r3⟩
  refine pOnly_bind _ _ (popBool_pOnly r3) ?_
  rintro ⟨en, r4⟩
  exact pOnly_ok _

theorem desCommand_pOnly (l : List Nat) : pOnly (desCommand l) := by
  unfold desCommand
  refine pOnly_bind _ _ (popDisc_pOnly l) ?_
  rintro ⟨d, rest⟩
  match d with
  | 0 => exact pOnly_ok _
  | 1 => exact pOnly_ok _
  | 2 =>
    refine pOnly_bind _ _ (varintDec_pOnly 3 4 rest) ?_
    rintro ⟨n, r⟩
    exact pOnly_ok _
  | 3 =>
    refine pOnly_bind _ _ (popBytes_pOnly DATA_COUNT rest) ?_
    rintro ⟨bs, r⟩
    exact pOnly_ok _
  | n + 4 => exact pOnly_err 4

theorem desResponse_pOnly (l : List Nat) : pOnly (desResponse l) := by
  unfold desResponse
  refine pOnly_bind _ _ (popDisc_pOnly l) ?_
  rintro ⟨d, rest⟩
  match d with
  | 0 =>
    refine pOnly_bind _ _ (desAckType_pOnly rest) ?_
    rintro ⟨a, r⟩
    exact pOnly_ok _
  | 1 =>
    refine pOnly_bind _ _ (desNackType_pOnly rest) ?_
    rintro ⟨n, r⟩
    exact pOnly_ok _
  | 2 =>
    refine pOnly_bind _ _ (varintDec_pOnly 3 4 rest) ?_
    rintro ⟨n, r⟩
    exact pOnly_ok _
  | 3 =>
    refine pOnly_bind _ _ (popBytes_pOnly DATA_COUNT rest) ?_
    rintro ⟨bs, r⟩
    exact pOnly_ok _
  | 4 =>
    refine pOnly_bind _ _ (desTimerDebug_pOnly rest) ?_
    rintro ⟨td, r⟩
    exact pOnly_ok _
  | n + 5 => exact pOnly_err 4

theorem desKeyUpdate_pOnly (l : List Nat) : pOnly (desKeyUpdate l) := by
  unfold desKeyUpdate
  refine pOnly_bind _ _ (varintDec_pOnly 5 16 l) ?_
  rintro ⟨n, rest⟩
  dsimp only
  by_cases h : n ≤ NUM_KEYS
  · rw [if_pos h]
    refine pOnly_bind _ _ (popBytes_pOnly n rest) ?_
    rintro ⟨bs, r⟩
    exact pOnly_ok _
  · rw [if_neg h]
    exact pOnly_err 5

theorem postcard_from_bytes_pOnly {α : Type}
    (des : List Nat → Except ProtoError (α × List Nat))
    (hdes : ∀ l, pOnly (des l)) (l : List Nat) :
    pOnly (postcard_from_bytes des l) := by
  unfold postcard_from_bytes
  cases hd : des l with
  | ok x => exact pOnly_ok _
  | error e =>
    intro e2 h
    simp [Except.map] at h
    subst h
    exact hdes l e hd

/-- C6: decode error taxonomy.  On the empty buffer cs_decode fails with
BadLength; on a non-empty buffer it fails with CrcMismatch, carrying the
computed and received CRC bytes, exactly when the last byte differs from
the CRC-8-Bluetooth checksum of the preceding bytes; wire_decode fails
with an Invariant error when the last byte is not the 0 sentinel or when
the escape chain is malformed; and whenever either decode succeeds the
last byte of the unescaped payload equals the CRC of the preceding
bytes. -/
theorem c6_decode_errors {α : Type}
    (des : List Nat → Except ProtoError (α × List Nat))
    (hdes : ∀ l, pOnly (des l)) (buf : List Nat) :
    (buf = [] → cs_decode des buf = .error (.BadLength 0 0)) ∧
    (∀ a, buf.getLast? = some a →
      (a ≠ crc8 buf.dropLast →
        cs_decode des buf = .error (.CrcMismatch (crc8 buf.dropLast) a)) ∧
      (∀ cc aa, cs_decode des buf = .error (.CrcMismatch cc aa) →
        aa = a ∧ cc = crc8 buf.dropLast ∧ aa ≠ cc)) ∧
    (buf.getLast? ≠ some 0 → wire_decode des buf = .error (.Invariant 0 5)) ∧
    (buf.getLast? = some 0 → cobsDecode buf.dropLast = none →
      wire_decode des buf = .error (.Invariant 0 6)) ∧
    (∀ v : α, cs_decode des buf = .ok v →
      ∃ a, buf.getLast? = some a ∧ a = crc8 buf.dropLast) ∧
    (∀ v : α, wire_decode des buf = .ok v →
      ∃ payload a, cobsDecode buf.dropLast = some payload ∧
        payload.getLast? = some a ∧ a = crc8 payload.dropLast) := by
  refine ⟨?_, ?_, ?_, ?_, ?_, ?_⟩
  · intro hnil
    subst hnil
    rfl
  · intro a ha
    unfold cs_decode
    rw [ha]
    dsimp only
    constructor
    · intro hne
      rw [if_pos hne]
    · intro cc aa hcm
      by_cases heq : a ≠ crc8 buf.dropLast
      · rw [if_pos heq] at hcm
        cases hcm
        exact ⟨rfl, rfl, heq⟩
      · rw [if_neg heq] at hcm
        rcases postcard_from_bytes_pOnly des hdes buf.dropLast _ hcm with ⟨code, hc⟩
        cases hc
  · intro hne
    unfold wire_decode
    rw [if_pos hne]
  · intro hz hnone
    unfold wire_decode
    rw [if_neg (by rw [hz]; simp), hnone]
  · intro v hok
    unfold cs_decode at hok
    cases hl : buf.getLast? with
    | none =>
      rw [hl] at hok
      cases hok
    | some a =>
      rw [hl] at hok
      dsimp only at hok
      by_cases heq : a ≠ crc8 buf.dropLast
      · rw [if_pos heq] at hok
        cases hok
      · exact ⟨a, rfl, by omega⟩
  · intro v hok
    unfold wire_decode at hok
    by_cases hz : buf.getLast? ≠ some 0
    · rw [if_pos hz] at hok
      cases hok
    · rw [if_neg hz] at hok
      cases hcb : cobsDecode buf.dropLast with
      | none =>
        rw [hcb] at hok
        cases hok
      | some payload =>
        rw [hcb] at hok
        dsimp only at hok
        unfold cs_decode at hok
        cases hl : payload.getLast? with
        | none =>
          rw [hl] at hok
          cases hok
        | some a =>
          rw [hl] at hok
          dsimp only at hok
          by_cases heq : a ≠ crc8 payload.dropLast
          · rw [if_pos heq] at hok
            cases hok
          · exact ⟨payload, a, rfl, hl, by omega⟩

/-- C6 witness: the decode error taxonomy theorem applied to the Command
deserializer and a concrete buffer. -/
theorem c6_decode_errors_witness :
    (∀ l, pOnly (desCommand l)) ∧
    (([7] : List Nat) = [] → cs_decode desCommand [7] = .error (.BadLength 0 0)) ∧
    (∀ a, ([7] : List Nat).getLast? = some a →
      (a ≠ crc8 ([7] : List Nat).dropLast →
        cs_decode desCommand [7] = .error (.CrcMismatch (crc8 ([7] : List Nat).dropLast) a)) ∧
      (∀ cc aa, cs_decode desCommand [7] = .error (.CrcMismatch cc aa) →
        aa = a ∧ cc = crc8 ([7] : List Nat).dropLast ∧ aa ≠ cc)) ∧
    (([7] : List Nat).getLast? ≠ some 0 →
      wire_decode desCommand [7] = .error (.Invariant 0 5)) ∧
    (([7] : List Nat).getLast? = some 0 → cobsDecode ([7] : List Nat).dropLast = none →
      wire_decode desCommand [7] = .error (.Invariant 0 6)) ∧
    (∀ v : Command, cs_decode desCommand [7] = .ok v →
      ∃ a, ([7] : List Nat).getLast? = some a ∧ a = crc8 ([7] : List Nat).dropLast) ∧
    (∀ v : Command, wire_decode desCommand [7] = .ok v →
      ∃ payload a, cobsDecode ([7] : List Nat).dropLast = some payload ∧
        payload.getLast? = some a ∧ a = crc8 payload.dropLast) :=
  ⟨desCommand_pOnly, c6_decode_errors desCommand desCommand_pOnly [7]⟩

/-- send_packet from src/firmware/src/serial.rs: wire-encode the
response with N = Response::WIRE_MAX_SIZE and transmit the frame; on
encode failure transmit the fixed raw bytes 0xBE 0xEF 0x00 instead. -/
def send_packet (r : Response) : List Nat :=
  match wire_encode_resp r with
  | .ok buf => buf
  | .error _ => [0xBE, 0xEF, 0x00]

/-- C10: on a Response whose encoding fails the device does not stay
silent and does not emit a valid frame: the reply on the wire is either
the successful wire_encode frame or exactly the bytes 0xBE 0xEF 0x00,
and the latter is rejected by both the host recv_response path and
wire_decode. -/
theorem c10_send_packet (r : Response) :
    (send_packet r = [0xBE, 0xEF, 0x00] ∨
      ∃ f, wire_encode_resp r = .ok f ∧ send_packet r = f) ∧
    recv_response desResponse [0xBE, 0xEF, 0x00] = none ∧
    wire_decode desResponse [0xBE, 0xEF, 0x00] = .error (.Invariant 0 6) := by
  refine ⟨?_, by decide, by rfl⟩
  unfold send_packet
  cases h : wire_encode_resp r with
  | ok f => exact Or.inr ⟨f, rfl, rfl⟩
  | error e => exact Or.inl rfl

/-! ### Firmware command server (src/firmware/src/serial.rs and
src/firmware/src/main.rs).

The cooperative tasks are embedded as pure functions over explicit input
streams: USB packets arrive as a list of byte lists, and the outcome of
each Packetizer::recv_cmd call is threaded as an explicit
Except NackType Command.  Control effects (the shutdown rendezvous and
the reset / bootloader entry) are recorded as an event trace. -/

def MAX_PACKET_SIZE : Nat := 64

/-- Events observable from the command server: responses written to the
primary endpoint, the one-shot shutdown signal, the completion of
usb.disable() (signalled back through USB_SHUTDOWN), and the final
transfers of control. -/
inductive Event where
  | sendResp (r : Response)
  | signalShutdown
  | usbDisabled
  | watchdogReset
  | romBootloader
  deriving DecidableEq, Repr

def Event.isSend : Event → Bool
  | .sendResp _ => true
  | _ => false

/-- shutdown() from src/firmware/src/main.rs: INITIATE_SHUTDOWN is sent,
then USB_SHUTDOWN is awaited; usb_task signals USB_SHUTDOWN only after
usb.disable() returns, so the disable completes before shutdown()
returns. -/
def shutdownTrace : List Event := [.signalShutdown, .usbDisabled]

/-- The body of Packetizer::recv_data from src/firmware/src/serial.rs
for the echo session (DataRecvr = EchoRecvr): one loop iteration per
8-byte chunk announced; a Data command is echoed back, any other
command or receive error is answered with a Nack and the loop
continues. -/
def recv_data : Nat → List (Except NackType Command) →
    List Response × List (Except NackType Command)
  | 0, inputs => ([], inputs)
  | _ + 1, [] => ([], [])
  | iters + 1, i :: rest =>
    let reply :=
      match i with
      | .ok (.Data d) => Response.Data d
      | .ok _ => Response.Nack .Unexpected
      | .error e => Response.Nack e
    let p := recv_data iters rest
    (reply :: p.1, p.2)

/-- Number of iterations of (0..count).step_by(8): ceil(count / 8). -/
def chunkCount (count : Nat) : Nat := (count + 7) / 8

/-- The EchoMsg arm of SerialIf::run: send the Echo header response,
then run recv_data over ceil(count / 8) incoming frames. -/
def echoSession (n : Nat) (inputs : List (Except NackType Command)) :
    List Response × List (Except NackType Command) :=
  let p := recv_data (chunkCount n) inputs
  (Response.EchoMsg n :: p.1, p.2)

/-- SerialIf::run dispatch (src/firmware/src/serial.rs), one decoded
command: the events it produces.  Reset and UsbDfu run the shutdown
rendezvous and then trigger the watchdog reset / ROM bootloader entry;
no response is sent on either path. -/
def serialHandle (c : Command) (inputs : List (Except NackType Command)) : List Event :=
  match c with
  | .Reset => shutdownTrace ++ [.watchdogReset]
  | .UsbDfu => shutdownTrace ++ [.romBootloader]
  | .EchoMsg n => (echoSession n inputs).1.map .sendResp
  | .Data _ => [.sendResp (.Nack .Unexpected)]

/-- Packetizer ring buffer: circular_buffer::CircularBuffer of capacity
2 * MAX_PACKET_SIZE keeps the most recent bytes, dropping from the
front on overflow. -/
def extendRing (cap : Nat) (buf pkt : List Nat) : List Nat :=
  let c := buf ++ pkt
  c.drop (c.length - cap)

/-- Packetizer::recv_cmd from src/firmware/src/serial.rs: scan the ring
for a 0 delimiter; if bytes were lost to overflow before the delimiter
arrived, drop the partial frame through the delimiter and surface
Nack(BufferOverflow); otherwise wire-decode the frame and pop it.  When
no delimiter is buffered, await the next USB packet (fuel bounds the
number of reads; none stands for parking on a read that never
returns). -/
def recv_cmd : Nat → Bool → List Nat → List (List Nat) →
    Option (Except NackType Command × List Nat × List (List Nat))
  | 0, _, _, _ => none
  | fuel + 1, lost, buf, stream =>
    match buf.findIdx? (· = 0) with
    | some lineEnd =>
      if lost then
        some (.error .BufferOverflow, buf.drop (lineEnd + 1), stream)
      else
        some (match wire_decode_cmd (buf.take (lineEnd + 1)) with
          | .ok c => .ok c
          | .error e => .error (.PacketErr e),
          buf.drop (lineEnd + 1), stream)
    | none =>
      match stream with
      | [] => none
      | pkt :: rest =>
        let lost2 := lost || decide (2 * MAX_PACKET_SIZE - buf.length < pkt.length)
        recv_cmd fuel lost2 (extendRing (2 * MAX_PACKET_SIZE) buf pkt) rest

theorem recv_cmd_parked (fuel : Nat) (lost : Bool) :
    recv_cmd fuel lost [] [] = none := by
  cases fuel with
  | zero => rfl
  | succ f => rfl

/-! ### C3: shutdown ordering -/

/-- C3 counterexample: on Reset (and EnterBootloader, i.e. UsbDfu) the
command server emits no response at all, in particular no Ack before the
shutdown signal; its whole trace is the shutdown signal, the USB disable
completion, and the reset or bootloader entry. -/
theorem c3_counterexample :
    ((serialHandle Command.Reset []).filter Event.isSend = [] ∧
      (serialHandle Command.UsbDfu []).filter Event.isSend = []) ∧
    serialHandle Command.Reset [] = [.signalShutdown, .usbDisabled, .watchdogReset] ∧
    serialHandle Command.UsbDfu [] = [.signalShutdown, .usbDisabled, .romBootloader] := by
  decide

/-- C3 amended: no Ack (nor any other response) is emitted on Reset or
EnterBootloader; the server raises the shutdown signal, the USB task
disables the device and acknowledges, and only then is the watchdog
reset (or ROM bootloader entry) triggered — for every input stream. -/
theorem c3_shutdown_order (inputs : List (Except NackType Command)) :
    serialHandle Command.Reset inputs =
      [.signalShutdown, .usbDisabled, .watchdogReset] ∧
    serialHandle Command.UsbDfu inputs =
      [.signalShutdown, .usbDisabled, .romBootloader] ∧
    (∀ e ∈ serialHandle Command.Reset inputs, e.isSend = false) ∧
    (∀ e ∈ serialHandle Command.UsbDfu inputs, e.isSend = false) := by
  refine ⟨rfl, rfl, ?_, ?_⟩ <;>
    (intro e he
     simp only [serialHandle, shutdownTrace, List.cons_append, List.nil_append,
       List.mem_cons, List.not_mem_nil, or_false] at he
     rcases he with rfl | rfl | rfl <;> rfl)

/-! ### C4: echo chunk protocol -/

/-- The reply the echo loop gives to one incoming receive result. -/
def echoReply : Except NackType Command → Response
  | .ok (.Data d) => .Data d
  | .ok _ => .Nack .Unexpected
  | .error e => .Nack e

def dataPayload : Response → Option (List Nat)
  | .Data d => some d
  | _ => none

/-- Concatenation of the Data payloads of a response list. -/
def concatData (rs : List Response) : List Nat := (rs.filterMap dataPayload).flatten

theorem recv_data_spec (iters : Nat) : ∀ inputs : List (Except NackType Command),
    inputs.length = iters → recv_data iters inputs = (inputs.map echoReply, []) := by
  induction iters with
  | zero =>
    intro inputs hlen
    rw [List.eq_nil_of_length_eq_zero hlen]
    rfl
  | succ k ih =>
    intro inputs hlen
    cases inputs with
    | nil => simp at hlen
    | cons i rest =>
      simp only [List.length_cons] at hlen
      have hstep : recv_data (k + 1) (i :: rest) =
          ((match i with
            | .ok (.Data d) => Response.Data d
            | .ok _ => Response.Nack .Unexpected
            | .error e => Response.Nack e) :: (recv_data k rest).1,
            (recv_data k rest).2) := rfl
      rw [hstep, ih rest (by omega)]
      rcases i with c | e
      · cases c <;> rfl
      · rfl

theorem concatData_map_data (ds : List (List Nat)) :
    concatData (ds.map Response.Data) = ds.flatten := by
  induction ds with
  | nil => rfl
  | cons d rest ih =>
    unfold concatData at ih ⊢
    rw [List.map_cons, List.filterMap_cons]
    dsimp only [dataPayload]
    rw [List.flatten_cons, List.flatten_cons, ih]

/-- C4: an Echo session with count = n emits exactly one EchoMsg
header response, then handles exactly ceil(n / 8) incoming frames,
answering each Data command with a Data response carrying the identical
payload and any other command (or receive error) with a Nack while the
session continues; when every frame is a Data command, the
concatenation of the Data responses truncated to n bytes equals the
concatenation of the sent payloads truncated to n bytes. -/
theorem c4_echo_session (n : Nat) (inputs : List (Except NackType Command))
    (hlen : inputs.length = chunkCount n) :
    (echoSession n inputs).1 = Response.EchoMsg n :: inputs.map echoReply ∧
    (echoSession n inputs).2 = [] ∧
    chunkCount n = (n + 7) / 8 ∧
    (∀ ds : List (List Nat), inputs = ds.map (fun d => .ok (.Data d)) →
      (echoSession n inputs).1 = Response.EchoMsg n :: ds.map Response.Data ∧
      (concatData ((echoSession n inputs).1.tail)).take n = ds.flatten.take n) := by
  have hrd := recv_data_spec (chunkCount n) inputs hlen
  refine ⟨?_, ?_, rfl, ?_⟩
  · unfold echoSession
    rw [hrd]
  · unfold echoSession
    rw [hrd]
  · intro ds hds
    have hmap : inputs.map echoReply = ds.map Response.Data := by
      rw [hds, List.map_map]
      rfl
    constructor
    · unfold echoSession
      rw [hrd, hmap]
    · unfold echoSession
      rw [hrd]
      simp only [List.tail_cons]
      rw [hmap, concatData_map_data]

/-- C4 witness: the echo-session theorem applied to a two-chunk session
carrying the nine bytes ABCDEFGHI. -/
theorem c4_echo_session_witness :
    ([.ok (.Data [65, 66, 67, 68, 69, 70, 71, 72]),
      .ok (.Data [73, 0, 0, 0, 0, 0, 0, 0])] :
        List (Except NackType Command)).length = chunkCount 9 ∧
    ((echoSession 9 [.ok (.Data [65, 66, 67, 68, 69, 70, 71, 72]),
        .ok (.Data [73, 0, 0, 0, 0, 0, 0, 0])]).1 =
      Response.EchoMsg 9 ::
        ([.ok (.Data [65, 66, 67, 68, 69, 70, 71, 72]),
          .ok (.Data [73, 0, 0, 0, 0, 0, 0, 0])] :
            List (Except NackType Command)).map echoReply ∧
      (echoSession 9 [.ok (.Data [65, 66, 67, 68, 69, 70, 71, 72]),
        .ok (.Data [73, 0, 0, 0, 0, 0, 0, 0])]).2 = [] ∧
      chunkCount 9 = (9 + 7) / 8 ∧
      (∀ ds : List (List Nat),
        ([.ok (.Data [65, 66, 67, 68, 69, 70, 71, 72]),
          .ok (.Data [73, 0, 0, 0, 0, 0, 0, 0])] :
            List (Except NackType Command)) = ds.map (fun d => .ok (.Data d)) →
        (echoSession 9 [.ok (.Data [65, 66, 67, 68, 69, 70, 71, 72]),
          .ok (.Data [73, 0, 0, 0, 0, 0, 0, 0])]).1 =
          Response.EchoMsg 9 :: ds.map Response.Data ∧
        (concatData ((echoSession 9 [.ok (.Data [65, 66, 67, 68, 69, 70, 71, 72]),
          .ok (.Data [73, 0, 0, 0, 0, 0, 0, 0])]).1.tail)).take 9 =
          ds.flatten.take 9)) :=
  ⟨by decide,
    c4_echo_session 9 [.ok (.Data [65, 66, 67, 68, 69, 70, 71, 72]),
      .ok (.Data [73, 0, 0, 0, 0, 0, 0, 0])] (by decide)⟩

/-! ### C5: buffer overflow recovery -/

/-- C5 counterexample: after 2 x MTU + 1 = 129 bytes of delimiter-free
garbage followed by one valid Reset frame, the server surfaces
Nack(BufferOverflow) but discards the valid frame along with the
garbage (the buffer and the input stream are left empty), and then
parks forever on an empty stream — it does not process the valid frame,
even though that frame alone decodes to Reset. -/
theorem c5_counterexample :
    recv_cmd 5 false [] [List.replicate 64 0xFF, List.replicate 64 0xFF, [0xFF],
        [1, 1, 1, 0]] = some (.error .BufferOverflow, [], []) ∧
    wire_decode_cmd [1, 1, 1, 0] = .ok Command.Reset ∧
    (∀ fuel lost, recv_cmd fuel lost [] [] = none) :=
  ⟨by decide, by decide, recv_cmd_parked⟩

/-- C5 amended: when the ring has overflowed, the next 0 delimiter makes
recv_cmd discard everything up to and including that delimiter —
including the valid frame that supplied it — and surface
Nack(BufferOverflow), keeping exactly the bytes after the delimiter; a
subsequent frame is then processed normally.  Concretely, after 129
garbage bytes and two copies of the Reset frame, the first recv_cmd
yields Nack(BufferOverflow) (consuming the garbage and the first frame)
and the next recv_cmd decodes the second frame to Reset. -/
theorem c5_overflow_recovery :
    (∀ (fuel : Nat) (buf : List Nat) (stream : List (List Nat)) (i : Nat),
      buf.findIdx? (· = 0) = some i →
      recv_cmd (fuel + 1) true buf stream =
        some (.error .BufferOverflow, buf.drop (i + 1), stream)) ∧
    recv_cmd 5 false [] [List.replicate 64 0xFF, List.replicate 64 0xFF, [0xFF],
        [1, 1, 1, 0], [1, 1, 1, 0]] =
      some (.error .BufferOverflow, [], [[1, 1, 1, 0]]) ∧
    recv_cmd 2 false [] [[1, 1, 1, 0]] = some (.ok Command.Reset, [], []) := by
  refine ⟨?_, by decide, by decide⟩
  intro fuel buf stream i hfind
  simp only [recv_cmd]
  rw [hfind]
  simp

/-! ### C7: the Command type -/

/-- C7 counterexample: every Command value is Reset, UsbDfu, EchoMsg or
Data — the type has no FlashFirmware variant — and the wire format
rejects a fifth discriminant. -/
theorem c7_counterexample :
    (∀ c : Command, c = .Reset ∨ c = .UsbDfu ∨ (∃ n, c = .EchoMsg n) ∨
      (∃ d, c = .Data d)) ∧
    desCommand [4] = .error (.PostcardError 4) := by
  constructor
  · intro c
    cases c with
    | Reset => exact Or.inl rfl
    | UsbDfu => exact Or.inr (Or.inl rfl)
    | EchoMsg n => exact Or.inr (Or.inr (Or.inl ⟨n, rfl⟩))
    | Data d => exact Or.inr (Or.inr (Or.inr ⟨d, rfl⟩))
  · decide

/-- C7 amended: the Command request type consists of exactly the tagged
variants Reset, UsbDfu (the bootloader request), EchoMsg with a u16
count, and Data with an 8-byte payload, serialized with the
discriminants 0, 1, 2, 3; there is no firmware-upload announce variant,
and the command server answers a bare Data command with
Nack(Unexpected). -/
theorem c7_command_type (d : List Nat) (inputs : List (Except NackType Command)) :
    (∀ c : Command, c = .Reset ∨ c = .UsbDfu ∨ (∃ n, c = .EchoMsg n) ∨
      (∃ d2, c = .Data d2)) ∧
    serCommand .Reset = [0] ∧
    serCommand .UsbDfu = [1] ∧
    (∀ n, (serCommand (.EchoMsg n)).head? = some 2) ∧
    (serCommand (.Data d)).head? = some 3 ∧
    serialHandle (.Data d) inputs = [.sendResp (.Nack .Unexpected)] := by
  refine ⟨?_, rfl, rfl, fun n => rfl, rfl, rfl⟩
  intro c
  cases c with
  | Reset => exact Or.inl rfl
  | UsbDfu => exact Or.inr (Or.inl rfl)
  | EchoMsg n => exact Or.inr (Or.inr (Or.inl ⟨n, rfl⟩))
  | Data d2 => exact Or.inr (Or.inr (Or.inr ⟨d2, rfl⟩))

/-! ### C8: logger reentrancy (src/firmware/src/logging.rs) -/

/-- State of the global defmt logger: the TAKEN flag.  acquire runs
inside a critical section: it panics if TAKEN is already set, otherwise
sets it; release clears it. -/
structure LoggerState where
  taken : Bool
  deriving DecidableEq, Repr

/-- Logger::acquire from src/firmware/src/logging.rs; none models the
panic (a trap) on reentrance. -/
def Logger.acquire (s : LoggerState) : Option LoggerState :=
  if s.taken then none else some ⟨true⟩

/-- Logger::release from src/firmware/src/logging.rs. -/
def Logger.release (_s : LoggerState) : LoggerState := ⟨false⟩

/-- C8: entering acquire a second time before the matching release is a
trap: whenever an acquire has succeeded, a second acquire panics rather
than proceeding or blocking; after release, acquire succeeds again. -/
theorem c8_logger_reentrancy (s s2 : LoggerState)
    (h : Logger.acquire s = some s2) :
    Logger.acquire s2 = none ∧ s2.taken = true ∧
    Logger.acquire (Logger.release s2) = some ⟨true⟩ := by
  unfold Logger.acquire at h
  by_cases ht : s.taken
  · rw [if_pos ht] at h
    cases h
  · rw [if_neg ht] at h
    cases h
    exact ⟨rfl, rfl, rfl⟩

/-- C8 witness: the reentrancy theorem applied to a concrete execution
starting from the released state. -/
theorem c8_logger_reentrancy_witness :
    Logger.acquire ⟨false⟩ = some ⟨true⟩ ∧
    (Logger.acquire ⟨true⟩ = none ∧ (⟨true⟩ : LoggerState).taken = true ∧
      Logger.acquire (Logger.release ⟨true⟩) = some ⟨true⟩) :=
  ⟨by decide, c8_logger_reentrancy ⟨false⟩ ⟨true⟩ (by decide)⟩

/-! ### UF2 container parser (src/cli/src/uf2.rs) and the uf2 subcommand
(analyze_uf2 in src/cli/src/main.rs) -/

def UF2_PAYLOAD_LEN : Nat := 476

structure Uf2Block where
  flags_data : Nat
  target_addr : Nat
  payload_size : Nat
  block_num : Nat
  num_blocks : Nat
  extra_data : Nat
  payload : List Nat
  deriving DecidableEq, Repr

/-- Little-endian u32 read of four bytes. -/
def u32le (l : List Nat) : Nat :=
  match l with
  | [a, b, c, d] => a + 256 * (b + 256 * (c + 256 * d))
  | _ => 0

def field32 (chunk : List Nat) (off : Nat) : Nat := u32le ((chunk.drop off).take 4)

/-- Mask of the bits defined in the Uf2Flags bitflags (NotMainFlash
0x1, FileContainer 0x1000, FamilyIdPres 0x2000, ChecksumPres 0x4000,
ExtTagsPres 0x8000); bitflags::from_bits fails on any other bit. -/
def UF2_FLAGS_MASK : Nat := 0xF001

/-- Parse one 512-byte chunk: magic words at offsets 0, 4, 508, defined
flag bits only, payload size at most 476. -/
def parseBlock (chunk : List Nat) : Except Unit Uf2Block :=
  if chunk.take 4 ≠ [0x55, 0x46, 0x32, 0x0A] then .error ()
  else if (chunk.drop 4).take 4 ≠ [0x57, 0x51, 0x5D, 0x9E] then .error ()
  else if (chunk.drop 508).take 4 ≠ [0x30, 0x6F, 0xB1, 0x0A] then .error ()
  else if field32 chunk 8 &&& UF2_FLAGS_MASK ≠ field32 chunk 8 then .error ()
  else if UF2_PAYLOAD_LEN < field32 chunk 16 then .error ()
  else .ok ⟨field32 chunk 8, field32 chunk 12, field32 chunk 16, field32 chunk 20,
    field32 chunk 24, field32 chunk 28, (chunk.drop 32).take UF2_PAYLOAD_LEN⟩

/-- slice::chunks_exact(n): the full n-length chunks in order (fuel is
structural head-room; one unit per chunk). -/
def chunksExactF : Nat → Nat → List Nat → List (List Nat)
  | 0, _, _ => []
  | fuel + 1, n, l =>
    if l.length < n ∨ n = 0 then []
    else l.take n :: chunksExactF fuel n (l.drop n)

/-- Uf2Block::parse from src/cli/src/uf2.rs: the file length must be a
multiple of 512; every chunk must parse. -/
def Uf2Block.parse (data : List Nat) : Except Unit (List Uf2Block) :=
  if data.length % 512 ≠ 0 then .error ()
  else
    let rec seq : List (List Nat) → Except Unit (List Uf2Block)
      | [] => .ok []
      | c :: rest => do
        let b ← parseBlock c
        let bs ← seq rest
        .ok (b :: bs)
    seq (chunksExactF data.length 512 data)

def Uf2Block.get_bounds (b : Uf2Block) : Nat × Nat :=
  (b.target_addr, b.target_addr + b.payload_size)

/-- get_flags().contains(Uf2Flags::NotMainFlash). -/
def Uf2Block.notMainFlash (b : Uf2Block) : Bool := b.flags_data &&& 1 ≠ 0

/-- The printing loop of analyze_uf2: carry the current (start, end)
bounds, extend while the next block starts exactly at the carried end,
otherwise print (start, length) and restart; the final bounds are
printed after the loop. -/
def coalesceLoop (bounds : Nat × Nat) : List (Nat × Nat) → List (Nat × Nat)
  | [] => [(bounds.1, bounds.2 - bounds.1)]
  | nb :: rest =>
    if bounds.2 = nb.1 then coalesceLoop (bounds.1, nb.2) rest
    else (bounds.1, bounds.2 - bounds.1) :: coalesceLoop nb rest

/-- analyze_uf2 from src/cli/src/main.rs: parse the container, take the
first block's bounds unconditionally, then walk the remaining blocks
filtered to those without the NotMainFlash flag, coalescing contiguous
bounds; returns the printed (start, length) ranges. -/
def analyze_uf2 (data : List Nat) : Except Unit (List (Nat × Nat)) := do
  let blocks ← Uf2Block.parse data
  match blocks with
  | [] => .error ()
  | b0 :: rest =>
    .ok (coalesceLoop b0.get_bounds
      ((rest.filter (fun b => ¬ b.notMainFlash)).map Uf2Block.get_bounds))

/-- Little-endian u32 write, for building concrete containers. -/
def u32enc (v : Nat) : List Nat :=
  [v % 256, v / 256 % 256, v / 65536 % 256, v / 16777216 % 256]

/-- The 32-byte header of a well-formed block: the two start magics and
the six u32 fields (block_num, num_blocks and extra_data zero). -/
def mkHdr (f a p : Nat) : List Nat :=
  [0x55, 0x46, 0x32, 0x0A] ++ [0x57, 0x51, 0x5D, 0x9E] ++
  u32enc f ++ u32enc a ++ u32enc p ++ u32enc 0 ++ u32enc 0 ++ u32enc 0

/-- One well-formed 512-byte block with an all-zero payload region. -/
def mkUf2Block (f a p : Nat) : List Nat :=
  mkHdr f a p ++ (List.replicate UF2_PAYLOAD_LEN 0 ++ [0x30, 0x6F, 0xB1, 0x0A])

/-- A container: the concatenation of the blocks described by (flags,
addr, size) triples. -/
def mkUf2File (bs : List (Nat × Nat × Nat)) : List Nat :=
  (bs.map (fun t => mkUf2Block t.1 t.2.1 t.2.2)).flatten

theorem u32le_u32enc (v : Nat) (h : v < 2 ^ 32) : u32le (u32enc v) = v := by
  show v % 256 + 256 * (v / 256 % 256 + 256 * (v / 65536 % 256 + 256 * (v / 16777216 % 256))) = v
  omega

theorem mkHdr_length (f a p : Nat) : (mkHdr f a p).length = 32 := by
  simp [mkHdr, u32enc]

theorem mkUf2Block_length (f a p : Nat) : (mkUf2Block f a p).length = 512 := by
  simp [mkUf2Block, mkHdr_length, UF2_PAYLOAD_LEN]

theorem replicate_payload_length :
    (List.replicate UF2_PAYLOAD_LEN (0 : Nat)).length = 476 := by
  simp [UF2_PAYLOAD_LEN]

theorem mk_take4 (f a p : Nat) : (mkUf2Block f a p).take 4 = [0x55, 0x46, 0x32, 0x0A] := by
  unfold mkUf2Block
  rw [List.take_append_of_le_length (by rw [mkHdr_length]; norm_num)]
  simp [mkHdr, u32enc]

theorem mk_drop_header (f a p k : Nat) (hk : k ≤ 32) :
    (mkUf2Block f a p).drop k =
      (mkHdr f a p).drop k ++ (List.replicate UF2_PAYLOAD_LEN 0 ++ [0x30, 0x6F, 0xB1, 0x0A]) := by
  unfold mkUf2Block
  exact List.drop_append_of_le_length (by rw [mkHdr_length]; omega)

theorem mk_drop4_take4 (f a p : Nat) :
    ((mkUf2Block f a p).drop 4).take 4 = [0x57, 0x51, 0x5D, 0x9E] := by
  rw [mk_drop_header f a p 4 (by norm_num)]
  rw [List.take_append_of_le_length (by rw [List.length_drop, mkHdr_length]; norm_num)]
  simp [mkHdr, u32enc]

theorem mk_drop508 (f a p : Nat) :
    (mkUf2Block f a p).drop 508 = [0x30, 0x6F, 0xB1, 0x0A] := by
  rw [show (508 : Nat) = 32 + 476 from rfl, ← List.drop_drop]
  rw [mk_drop_header f a p 32 (by norm_num)]
  rw [show (mkHdr f a p).drop 32 = [] by rw [← mkHdr_length f a p, List.drop_length]]
  rw [List.nil_append]
  rw [List.drop_append_of_le_length (by rw [replicate_payload_length])]
  rw [show (List.replicate UF2_PAYLOAD_LEN (0 : Nat)).drop 476 = [] by
    rw [← replicate_payload_length, List.drop_length]]
  rfl

theorem mk_payload (f a p : Nat) :
    ((mkUf2Block f a p).drop 32).take UF2_PAYLOAD_LEN =
      List.replicate UF2_PAYLOAD_LEN 0 := by
  rw [mk_drop_header f a p 32 (by norm_num)]
  rw [show (mkHdr f a p).drop 32 = [] by rw [← mkHdr_length f a p, List.drop_length]]
  rw [List.nil_append]
  exact List.take_left' rfl

theorem mk_field (f a p : Nat) (k : Nat) (v : Nat)
    (hslice : ((mkHdr f a p).drop k).take 4 = u32enc v) (hk : k ≤ 28) (hv : v < 2 ^ 32) :
    field32 (mkUf2Block f a p) k = v := by
  unfold field32
  rw [mk_drop_header f a p k (by omega)]
  rw [List.take_append_of_le_length (by rw [List.length_drop, mkHdr_length]; omega)]
  rw [hslice, u32le_u32enc v hv]

theorem mk_field8 (f a p : Nat) (hv : f < 2 ^ 32) :
    field32 (mkUf2Block f a p) 8 = f := by
  refine mk_field f a p 8 f ?_ (by norm_num) hv
  simp [mkHdr, u32enc]

theorem mk_field12 (f a p : Nat) (hv : a < 2 ^ 32) :
    field32 (mkUf2Block f a p) 12 = a := by
  refine mk_field f a p 12 a ?_ (by norm_num) hv
  simp [mkHdr, u32enc]

theorem mk_field16 (f a p : Nat) (hv : p < 2 ^ 32) :
    field32 (mkUf2Block f a p) 16 = p := by
  refine mk_field f a p 16 p ?_ (by norm_num) hv
  simp [mkHdr, u32enc]

theorem mk_field20 (f a p : Nat) : field32 (mkUf2Block f a p) 20 = 0 := by
  refine mk_field f a p 20 0 ?_ (by norm_num) (by norm_num)
  simp [mkHdr, u32enc]

theorem mk_field24 (f a p : Nat) : field32 (mkUf2Block f a p) 24 = 0 := by
  refine mk_field f a p 24 0 ?_ (by norm_num) (by norm_num)
  simp [mkHdr, u32enc]

theorem mk_field28 (f a p : Nat) : field32 (mkUf2Block f a p) 28 = 0 := by
  refine mk_field f a p 28 0 ?_ (by norm_num) (by norm_num)
  simp [mkHdr, u32enc]

theorem parseBlock_mk (f a p : Nat) (hf : f &&& UF2_FLAGS_MASK = f)
    (hp : p ≤ UF2_PAYLOAD_LEN) (ha : a < 2 ^ 32) :
    parseBlock (mkUf2Block f a p) =
      .ok ⟨f, a, p, 0, 0, 0, List.replicate UF2_PAYLOAD_LEN 0⟩ := by
  have hf32 : f < 2 ^ 32 := by
    have hle : f ≤ UF2_FLAGS_MASK := hf ▸ Nat.and_le_right
    unfold UF2_FLAGS_MASK at hle
    omega
  have hp32 : p < 2 ^ 32 := by
    unfold UF2_PAYLOAD_LEN at hp
    omega
  unfold parseBlock
  rw [mk_take4, mk_drop4_take4, mk_drop508, mk_field8 f a p hf32,
    mk_field12 f a p ha, mk_field16 f a p hp32, mk_field20, mk_field24, mk_field28,
    mk_payload]
  rw [if_neg (by simp), if_neg (by simp), if_neg (by simp), if_neg (by simp [hf]),
    if_neg (by omega)]

theorem chunksExactF_nil (fuel : Nat) : chunksExactF fuel 512 [] = [] := by
  cases fuel with
  | zero => rfl
  | succ f => simp [chunksExactF]

theorem chunksExactF_mkFile (bs : List (Nat × Nat × Nat)) : ∀ fuel : Nat,
    bs.length ≤ fuel →
    chunksExactF fuel 512 (mkUf2File bs) =
      bs.map (fun t => mkUf2Block t.1 t.2.1 t.2.2) := by
  induction bs with
  | nil =>
    intro fuel _
    rw [show mkUf2File [] = [] from rfl, chunksExactF_nil]
    rfl
  | cons t rest ih =>
    intro fuel hf
    cases fuel with
    | zero => simp at hf
    | succ fl =>
      have hmk : mkUf2File (t :: rest) = mkUf2Block t.1 t.2.1 t.2.2 ++ mkUf2File rest := by
        simp [mkUf2File]
      rw [hmk]
      simp only [chunksExactF]
      rw [if_neg (by
        simp only [List.length_append, mkUf2Block_length]
        omega)]
      rw [List.take_left' (mkUf2Block_length t.1 t.2.1 t.2.2),
        List.drop_left' (mkUf2Block_length t.1 t.2.1 t.2.2)]
      rw [ih fl (by simpa using hf)]
      rfl

theorem length_mkFile (bs : List (Nat × Nat × Nat)) :
    (mkUf2File bs).length = bs.length * 512 := by
  induction bs with
  | nil => rfl
  | cons t rest ih =>
    have hmk : mkUf2File (t :: rest) = mkUf2Block t.1 t.2.1 t.2.2 ++ mkUf2File rest := by
      simp [mkUf2File]
    rw [hmk, List.length_append, mkUf2Block_length, ih]
    simp [List.length_cons]
    ring

theorem seq_map_mk (bs : List (Nat × Nat × Nat))
    (hwf : ∀ t ∈ bs, t.1 &&& UF2_FLAGS_MASK = t.1 ∧ t.2.2 ≤ UF2_PAYLOAD_LEN ∧
      t.2.1 < 2 ^ 32) :
    Uf2Block.parse.seq (bs.map (fun t => mkUf2Block t.1 t.2.1 t.2.2)) =
      .ok (bs.map (fun t =>
        (⟨t.1, t.2.1, t.2.2, 0, 0, 0, List.replicate UF2_PAYLOAD_LEN 0⟩ : Uf2Block))) := by
  induction bs with
  | nil => rfl
  | cons t rest ih =>
    obtain ⟨h1, h2, h3⟩ := hwf t (by simp)
    simp only [List.map_cons]
    rw [Uf2Block.parse.seq]
    rw [parseBlock_mk t.1 t.2.1 t.2.2 h1 h2 h3, exceptBind_ok]
    rw [ih (fun x hx => hwf x (by simp [hx])), exceptBind_ok]

theorem parse_mkFile (bs : List (Nat × Nat × Nat))
    (hwf : ∀ t ∈ bs, t.1 &&& UF2_FLAGS_MASK = t.1 ∧ t.2.2 ≤ UF2_PAYLOAD_LEN ∧
      t.2.1 < 2 ^ 32) :
    Uf2Block.parse (mkUf2File bs) =
      .ok (bs.map (fun t =>
        (⟨t.1, t.2.1, t.2.2, 0, 0, 0, List.replicate UF2_PAYLOAD_LEN 0⟩ : Uf2Block))) := by
  unfold Uf2Block.parse
  rw [if_neg (by rw [length_mkFile]; omega)]
  rw [length_mkFile]
  rw [chunksExactF_mkFile bs (bs.length * 512) (by omega)]
  exact seq_map_mk bs hwf

/-- C9 counterexample: a container whose FIRST block is marked
NotMainFlash is not skipped: its range (0x20000000, 4) is printed,
refuting the claim that every block whose flags mark it non-flash is
skipped. -/
theorem c9_counterexample :
    analyze_uf2 (mkUf2File [(1, 0x20000000, 4), (0, 0x10000000, 4)]) =
      .ok [(0x20000000, 4), (0x10000000, 4)] := by
  unfold analyze_uf2
  rw [parse_mkFile [(1, 0x20000000, 4), (0, 0x10000000, 4)] (by decide)]
  decide

/-- Chained bounds: each block starts exactly where the carried bounds
end. -/
def chained : Nat × Nat → List (Nat × Nat) → Prop
  | _, [] => True
  | b, nb :: rest => b.2 = nb.1 ∧ chained nb rest

theorem getLastD_snd_congr (rest : List (Nat × Nat)) (x y : Nat × Nat)
    (h : x.2 = y.2) : (rest.getLastD x).2 = (rest.getLastD y).2 := by
  cases rest with
  | nil => exact h
  | cons a t => simp [List.getLastD]

theorem chained_congr (l : List (Nat × Nat)) (x y : Nat × Nat) (h : x.2 = y.2)
    (hc : chained x l) : chained y l := by
  cases l with
  | nil => trivial
  | cons nb rest => exact ⟨h ▸ hc.1, hc.2⟩

theorem coalesceLoop_chained (l : List (Nat × Nat)) : ∀ b : Nat × Nat, chained b l →
    coalesceLoop b l = [(b.1, (l.getLastD b).2 - b.1)] := by
  induction l with
  | nil => intro b _; rfl
  | cons nb rest ih =>
    intro b hc
    rw [coalesceLoop, if_pos hc.1]
    rw [ih (b.1, nb.2) (chained_congr rest nb (b.1, nb.2) rfl hc.2)]
    have hsnd := getLastD_snd_congr rest (b.1, nb.2) nb rfl
    rw [List.getLastD_cons]
    rw [hsnd]

/-- C9 amended: the uf2 subcommand takes the first block's range
unconditionally, regardless of its flags; every SUBSEQUENT block whose
flags mark it non-flash is skipped; runs of the remaining blocks with
target_addr + payload_size equal to the next block's target_addr
coalesce into a single printed (start, length) range — a fully chained
run prints exactly one range; the four-block container with payload
sizes 476, 476, 476, 100 contiguous from 0x10000000 prints exactly
(0x10000000, 1528); and a middle non-flash block does not break a
run. -/
theorem c9_uf2_coalescing :
    (∀ (b : Nat × Nat) (l : List (Nat × Nat)), chained b l →
      coalesceLoop b l = [(b.1, (l.getLastD b).2 - b.1)]) ∧
    analyze_uf2 (mkUf2File [(0, 0x10000000, 476), (0, 0x10000000 + 476, 476),
        (0, 0x10000000 + 952, 476), (0, 0x10000000 + 1428, 100)]) =
      .ok [(0x10000000, 1528)] ∧
    analyze_uf2 (mkUf2File [(0, 0x10000000, 4), (1, 0x30000000, 8),
        (0, 0x10000000 + 4, 4)]) = .ok [(0x10000000, 8)] := by
  refine ⟨fun b l hc => coalesceLoop_chained l b hc, ?_, ?_⟩
  · unfold analyze_uf2
    rw [parse_mkFile [(0, 0x10000000, 476), (0, 0x10000000 + 476, 476),
      (0, 0x10000000 + 952, 476), (0, 0x10000000 + 1428, 100)] (by decide)]
    decide
  · unfold analyze_uf2
    rw [parse_mkFile [(0, 0x10000000, 4), (1, 0x30000000, 8),
      (0, 0x10000000 + 4, 4)] (by decide)]
    decide

end Picodox
